import Mathlib

/-!
Verification development for the WtSOCR two-pass OCR merge pipeline
(scripts/line_anchor_merge_pilot.py, scripts/apply_approved_rewrites.py,
scripts/token_variant_report.py).

Modelling conventions.
Text is a sequence of Unicode code points, `List Char`.  The Python sources
start every normalization with a `unicodedata.normalize("NFC", s)` step; the
embedding works directly on code-point sequences and quantifies over all of
them, which covers every NFC output as a special case, so theorems proved for
all inputs of the embedded (NFC-free) pipeline apply to the composed Python
pipeline as well.  Floating-point similarity scores are modelled as exact
rationals; `difflib.SequenceMatcher` is embedded without the autojunk
heuristic, which in CPython only activates on second strings of length at
least 200 (every concrete input used below is far shorter).  Word characters
for the regex word-boundary assertions are modelled over the character
repertoire this program manipulates (ASCII alphanumerics, underscore, the
transliteration and German letters named in the sources, and the Tibetan and
Devanagari blocks).
-/

namespace WtSOCR

/-- Characters of the Tibetan block, TIB_RE = [ༀ-࿿]. -/
def isTibChar (c : Char) : Bool := 0x0F00 ≤ c.toNat && c.toNat ≤ 0x0FFF

/-- Characters of the Devanagari block, DEV_RE = [ऀ-ॿ]. -/
def isDevChar (c : Char) : Bool := 0x0900 ≤ c.toNat && c.toNat ≤ 0x097F

/-- LATIN_RE = [A-Za-z]. -/
def isAsciiLetter (c : Char) : Bool :=
  ('A' ≤ c && c ≤ 'Z') || ('a' ≤ c && c ≤ 'z')

def isAsciiDigit (c : Char) : Bool := '0' ≤ c && c ≤ '9'

/-- Whitespace as matched by the Python regex class \s (and str.strip) on str:
ASCII whitespace, the C1 separators, and the Unicode space characters. -/
def isPySpace (c : Char) : Bool :=
  c.toNat = 0x20 || c.toNat = 0x09 || c.toNat = 0x0a || c.toNat = 0x0d ||
  c.toNat = 0x0b || c.toNat = 0x0c ||
  (0x1c ≤ c.toNat && c.toNat ≤ 0x1f) || c.toNat = 0x85 || c.toNat = 0xa0 ||
  c.toNat = 0x1680 || (0x2000 ≤ c.toNat && c.toNat ≤ 0x200a) ||
  c.toNat = 0x2028 || c.toNat = 0x2029 || c.toNat = 0x202f ||
  c.toNat = 0x205f || c.toNat = 0x3000

/-- DIACRITIC_RE character set. -/
def isDiacriticChar (c : Char) : Bool :=
  "āīūṛṝḷḹṅñṭḍṇśṣḥṃṁźĀĪŪṚṜḶḸṄÑṬḌṆŚṢḤṂṀŹ".toList.contains c

/-- The lowercase transliteration letters [A-Za-zāīūṛṝḷḹṅñṭḍṇśṣḥṃṁź] used by
the lookahead classes of OCR_CONFUSABLE_I_RE, OCR_SUSPECT_RE and
PA_APOSTROPHE_RE, and by the letter count of roman_tail_quality_score. -/
def isTranslitLetterLower (c : Char) : Bool :=
  isAsciiLetter c || "āīūṛṝḷḹṅñṭḍṇśṣḥṃṁź".toList.contains c

/-- Word characters for the \b word-boundary assertion of Python regexes,
restricted to the repertoire this program manipulates. -/
def isWordChar (c : Char) : Bool :=
  isAsciiLetter c || isAsciiDigit c || c = '_' ||
  "āīūṛṝḷḹṅñṭḍṇśṣḥṃṁźĀĪŪṚṜḶḸṄÑṬḌṆŚṢḤṂṀŹäÄöÖüÜıİşŞņŅãÃßńǹù".toList.contains c ||
  -- Tibetan letters, subjoined letters, vowel signs and digits are \w;
  -- the tsheg/shad range U+0F0B-U+0F14 and other marks are not.
  (isTibChar c && !(0x0F01 ≤ c.toNat && c.toNat ≤ 0x0F3F)) ||
  isDevChar c

/-- Quote unification, dotless-i repair and form-feed/newline to space, the
character-to-character substitutions of normalize_text (QUOTE_NORMALIZE_MAP,
then the ı, form-feed and newline replacements). -/
def pyCharNorm (c : Char) : Char :=
  if c = '“' ∨ c = '”' ∨ c = '„' ∨ c = '«' ∨ c = '»' then '"'
  else if c = '’' ∨ c = '‘' ∨ c = '‚' ∨ c = '‛' then '\''
  else if c = 'ı' then 'i'
  else if c = '\x0c' then ' '
  else if c = '\n' then ' '
  else c

/-- Scanner for re.sub of a one-or-more character-class pattern with a single
space: the Boolean flag records whether the scanner is inside a run whose
replacement space has already been emitted. -/
def subRunsAux (p : Char → Bool) : Bool → List Char → List Char
  | _, [] => []
  | inRun, c :: cs =>
    if p c then (if inRun then [] else [' ']) ++ subRunsAux p true cs
    else c :: subRunsAux p false cs

/-- Replace every maximal run of characters satisfying p with a single space,
the effect of re.sub on a one-or-more character-class pattern. -/
def subRuns (p : Char → Bool) (l : List Char) : List Char := subRunsAux p false l

/-- str.strip(): drop Python whitespace from both ends. -/
def pyStrip (l : List Char) : List Char :=
  ((l.dropWhile isPySpace).reverse.dropWhile isPySpace).reverse

/-- normalize_text, line 163: NFC (see the modelling note at the top), quote
unification, ı→i, form feed and newline to space, whitespace collapsing via
WS_RE.sub, and strip. -/
def normalize_text (s : List Char) : List Char :=
  pyStrip (subRuns isPySpace (s.map pyCharNorm))

/-- TIB_RE.search as a Boolean. -/
def hasTib (s : List Char) : Bool := s.any isTibChar

/-- DEV_RE.search as a Boolean. -/
def hasDev (s : List Char) : Bool := s.any isDevChar

/-- LATIN_RE.search as a Boolean. -/
def hasLatin (s : List Char) : Bool := s.any isAsciiLetter

/-- len(DIACRITIC_RE.findall(s)). -/
def countDiacritics (s : List Char) : Nat := s.countP (fun c => isDiacriticChar c)

end WtSOCR

namespace WtSOCR

/-! ### difflib.SequenceMatcher

The quadratic j2len dynamic program of find_longest_match, the recursive block
decomposition of get_matching_blocks (only the total matched size is needed
for ratio), and ratio itself.  The autojunk heuristic is omitted; see the
modelling note (it is inert for second strings shorter than 200 characters,
and the isbjunk tests of the extension loops are then constantly false). -/

/-- One row of the j2len dynamic program: entry j is the length of the run of
matches ending at (i, j), or 0 when b[j] differs from a[i] or j is outside
[blo, bhi). -/
def flmRow (a b : List Char) (blo bhi i : Nat) (prev : List Nat) : List Nat :=
  (List.range b.length).map fun j =>
    if b.getD j ' ' = a.getD i ' ' ∧ blo ≤ j ∧ j < bhi then
      (if j = 0 then 0 else prev.getD (j - 1) 0) + 1
    else 0

/-- Scan one row for a new best block, mirroring the strict k > bestsize
update (ties keep the earliest block). -/
def flmBestInRow (row : List Nat) (i : Nat) (best : Nat × Nat × Nat) :
    Nat × Nat × Nat :=
  (List.range row.length).foldl
    (fun bst j =>
      let k := row.getD j 0
      if k > bst.2.2 then (i + 1 - k, j + 1 - k, k) else bst)
    best

/-- The i-loop of find_longest_match. -/
def flmLoop (a b : List Char) (alo ahi blo bhi : Nat) : Nat × Nat × Nat :=
  ((List.range' alo (ahi - alo)).foldl
    (fun (st : List Nat × (Nat × Nat × Nat)) i =>
      let row := flmRow a b blo bhi i st.1
      (row, flmBestInRow row i st.2))
    ([], (alo, blo, 0))).2

/-- Backward extension loop of find_longest_match (with isbjunk constantly
false).  The counter is the remaining room besti - alo. -/
def flmExtendBack (a b : List Char) (alo blo : Nat) :
    Nat → Nat × Nat × Nat → Nat × Nat × Nat
  | 0, best => best
  | fuel + 1, (besti, bestj, bestsize) =>
    if alo < besti ∧ blo < bestj ∧ a.getD (besti - 1) ' ' = b.getD (bestj - 1) '\x00' then
      flmExtendBack a b alo blo fuel (besti - 1, bestj - 1, bestsize + 1)
    else (besti, bestj, bestsize)

/-- Forward extension loop of find_longest_match (with isbjunk constantly
false). -/
def flmExtendFwd (a b : List Char) (ahi bhi : Nat) :
    Nat → Nat × Nat × Nat → Nat × Nat × Nat
  | 0, best => best
  | fuel + 1, (besti, bestj, bestsize) =>
    if besti + bestsize < ahi ∧ bestj + bestsize < bhi ∧
        a.getD (besti + bestsize) ' ' = b.getD (bestj + bestsize) '\x00' then
      flmExtendFwd a b ahi bhi fuel (besti, bestj, bestsize + 1)
    else (besti, bestj, bestsize)

/-- find_longest_match over the ranges a[alo:ahi], b[blo:bhi]. -/
def findLongestMatch (a b : List Char) (alo ahi blo bhi : Nat) :
    Nat × Nat × Nat :=
  flmExtendFwd a b ahi bhi (ahi + bhi)
    (flmExtendBack a b alo blo (ahi + bhi) (flmLoop a b alo ahi blo bhi))

/-- Total size of all matching blocks of get_matching_blocks: the recursive
divide-and-conquer around each longest match.  The fuel argument dominates the
recursion depth; the top-level call passes the combined range size plus one,
which the halving recursion never exhausts. -/
def matchedTotal (a b : List Char) : Nat → Nat → Nat → Nat → Nat → Nat
  | 0, _, _, _, _ => 0
  | fuel + 1, alo, ahi, blo, bhi =>
    let r := findLongestMatch a b alo ahi blo bhi
    if r.2.2 = 0 then 0
    else
      matchedTotal a b fuel alo r.1 blo r.2.1 + r.2.2 +
        matchedTotal a b fuel (r.1 + r.2.2) ahi (r.2.1 + r.2.2) bhi

/-- SequenceMatcher(None, a, b).ratio() = 2 M / (len a + len b), and 1.0 when
both are empty. -/
def pyRatio (a b : List Char) : ℚ :=
  if a.length + b.length = 0 then 1
  else
    (2 * (matchedTotal a b (a.length + b.length + 1) 0 a.length 0 b.length) : ℚ) /
      (a.length + b.length)

end WtSOCR

namespace WtSOCR

/-! ### Merge-arbiter string utilities -/

/-- TIB_STRIP_RE character class: whitespace, tsheg/shad marks U+0F0B-U+0F0F
and U+0F11-U+0F14, and the Tibetan digits U+0F20-U+0F29. -/
def isTibStripChar (c : Char) : Bool :=
  isPySpace c ||
  (0x0F0B ≤ c.toNat && c.toNat ≤ 0x0F0F) ||
  (0x0F11 ≤ c.toNat && c.toNat ≤ 0x0F14) ||
  (0x0F20 ≤ c.toNat && c.toNat ≤ 0x0F29)

/-- tibetan_anchor_for_merge, line 397: all Tibetan-block characters of s with
tsheg/shad/digit marks removed. -/
def tibetan_anchor_for_merge (s : List Char) : List Char :=
  (s.filter isTibChar).filter (fun c => !isTibStripChar c)

/-- DIACRITIC_BASE_TABLE, line 62: strip transliteration diacritics down to
their ASCII base letters (umlaut a included, o and u umlauts not). -/
def diacriticBase (c : Char) : Char :=
  match c with
  | 'ä' => 'a' | 'Ä' => 'A' | 'ā' => 'a' | 'Ā' => 'A'
  | 'ī' => 'i' | 'Ī' => 'I' | 'ū' => 'u' | 'Ū' => 'U'
  | 'ṛ' => 'r' | 'Ṛ' => 'R' | 'ṝ' => 'r' | 'Ṝ' => 'R'
  | 'ḷ' => 'l' | 'Ḷ' => 'L' | 'ḹ' => 'l' | 'Ḹ' => 'L'
  | 'ṅ' => 'n' | 'Ṅ' => 'N' | 'ñ' => 'n' | 'Ñ' => 'N'
  | 'ṭ' => 't' | 'Ṭ' => 'T' | 'ḍ' => 'd' | 'Ḍ' => 'D'
  | 'ṇ' => 'n' | 'Ṇ' => 'N' | 'ś' => 's' | 'Ś' => 'S'
  | 'ź' => 'z' | 'Ź' => 'Z' | 'ṣ' => 's' | 'Ṣ' => 'S'
  | 'ḥ' => 'h' | 'Ḥ' => 'H' | 'ṃ' => 'm' | 'Ṃ' => 'M'
  | 'ṁ' => 'm' | 'Ṁ' => 'M' | 'ş' => 's' | 'Ş' => 'S'
  | 'ņ' => 'n' | 'Ņ' => 'N' | 'ã' => 'a' | 'Ã' => 'A'
  | other => other

/-- PUNCT_STRIP_RE character class, line 110. -/
def isPunctStripChar (c : Char) : Bool :=
  "`~!@#%^&*_=+[]\\|;:\"“”„'’<>,./?()-".toList.contains c || c = '{' || c = '}'

/-- Unicode lowercasing restricted to the letters this program manipulates. -/
def pyLowerChar (c : Char) : Char :=
  if 'A' ≤ c ∧ c ≤ 'Z' then Char.ofNat (c.toNat + 32)
  else match c with
  | 'Ā' => 'ā' | 'Ī' => 'ī' | 'Ū' => 'ū' | 'Ṛ' => 'ṛ' | 'Ṝ' => 'ṝ'
  | 'Ḷ' => 'ḷ' | 'Ḹ' => 'ḹ' | 'Ṅ' => 'ṅ' | 'Ñ' => 'ñ' | 'Ṭ' => 'ṭ'
  | 'Ḍ' => 'ḍ' | 'Ṇ' => 'ṇ' | 'Ś' => 'ś' | 'Ṣ' => 'ṣ' | 'Ḥ' => 'ḥ'
  | 'Ṃ' => 'ṃ' | 'Ṁ' => 'ṁ' | 'Ź' => 'ź' | 'Ä' => 'ä' | 'Ö' => 'ö'
  | 'Ü' => 'ü' | 'Ş' => 'ş' | 'Ņ' => 'ņ' | 'Ã' => 'ã' | 'Ù' => 'ù'
  | 'Ń' => 'ń'
  | other => other

/-- str.casefold(): lowercasing with the sharp s expanded to ss. -/
def pyCasefold (s : List Char) : List Char :=
  s.flatMap (fun c => if c = 'ß' then ['s', 's'] else [pyLowerChar c])

/-- OCR_CONFUSABLE_I_RE.sub("l", s): a capital I at a word boundary followed by
a lowercase transliteration letter becomes l.  The scanner carries the
preceding original character for the word-boundary test. -/
def subConfusableI : Option Char → List Char → List Char
  | _, [] => []
  | prev, c :: rest =>
    let boundary := match prev with | none => true | some p => !isWordChar p
    let nextIsLetter := match rest with | [] => false | d :: _ => isTranslitLetterLower d
    (if c == 'I' && boundary && nextIsLetter then 'l' else c) :: subConfusableI (some c) rest

/-- len(OCR_SUSPECT_RE.findall(s)), line 42: dollar signs plus confusable
capital I occurrences. -/
def countOcrSuspect : Option Char → List Char → Nat
  | _, [] => 0
  | prev, c :: rest =>
    let boundary := match prev with | none => true | some p => !isWordChar p
    let nextIsLetter := match rest with | [] => false | d :: _ => isTranslitLetterLower d
    (if c == '$' || (c == 'I' && boundary && nextIsLetter) then 1 else 0) +
      countOcrSuspect (some c) rest

/-- PA_APOSTROPHE_RE.sub, line 43: an isolated pa followed by an apostrophe
(no transliteration letter on either side) becomes the restored genitive
spelling with a plain apostrophe and i. -/
def subPaApostrophe : Option Char → List Char → List Char
  | _, [] => []
  | prev, 'p' :: 'a' :: q :: rest2 =>
    if (match prev with | none => true | some p => !isTranslitLetterLower p) &&
        (q == '\'' || q == '’') &&
        (match rest2 with | [] => true | d :: _ => !isTranslitLetterLower d) then
      'p' :: 'a' :: '\'' :: 'i' :: subPaApostrophe (some q) rest2
    else 'p' :: subPaApostrophe (some 'p') ('a' :: q :: rest2)
  | _, c :: rest => c :: subPaApostrophe (some c) rest

/-- normalize_ocr_confusables, line 382. -/
def normalize_ocr_confusables (s : List Char) : List Char :=
  subPaApostrophe none
    (subConfusableI none (s.map (fun c => if c = '$' then 'ś' else c)))

/-- base_equivalent_for_merge, line 390: fold confusables, strip diacritics to
base letters, strip punctuation to spaces, re-normalize, casefold. -/
def base_equivalent_for_merge (s : List Char) : List Char :=
  pyCasefold (normalize_text
    (subRuns isPunctStripChar ((normalize_ocr_confusables s).map diacriticBase)))

/-- translit_tail_after_tibetan, line 404: the normalized text after the first
Tibetan span (Tibetan characters plus interleaved whitespace/marks). -/
def translit_tail_after_tibetan (s : List Char) : List Char :=
  let rest := s.dropWhile (fun c => !isTibChar c)
  if rest = [] then []
  else normalize_text (rest.dropWhile (fun c => isTibChar c || isPySpace c))

/-- split_tibetan_prefix_tail, line 412: HEADWORD_SPLIT_RE decomposition into
a leading Tibetan-plus-space run (after initial whitespace) and the rest.  In
Python the dot of the tail group cannot cross a newline, so a match only
exists when no interior newline follows the headword. -/
def split_tibetan_prefix_tail (s : List Char) : List Char × List Char :=
  let rest := s.dropWhile isPySpace
  let pfx := rest.takeWhile (fun c => isTibChar c || isPySpace c)
  let tl := rest.dropWhile (fun c => isTibChar c || isPySpace c)
  if ¬ (tl.dropLast.all (fun c => c ≠ '\n')) then ([], [])
  else if hasTib pfx then (pfx, normalize_text tl) else ([], [])

/-- ROMAN_TAIL_SUSPECT_RE character class, line 44. -/
def isRomanTailSuspectChar (c : Char) : Bool :=
  (0x0F20 ≤ c.toNat && c.toNat ≤ 0x0F33) || "£¥¢§¤@#%^&*_=/\\|~".toList.contains c

/-- roman_tail_quality_score, line 423: (letters, -suspects, diacritics) of
the romanization tail, all zero when there is no tail. -/
def roman_tail_quality_score (s : List Char) : ℤ × ℤ × ℤ :=
  let tail := translit_tail_after_tibetan s
  if tail = [] then (0, 0, 0)
  else ((tail.countP (fun c => isTranslitLetterLower c) : ℤ),
        -(tail.countP (fun c => isRomanTailSuspectChar c) : ℤ),
        (tail.countP (fun c => isDiacriticChar c) : ℤ))

/-- roman_tail_noise_score, line 433: count of digit/symbol junk characters in
the romanization tail. -/
def roman_tail_noise_score (s : List Char) : Nat :=
  let tail := translit_tail_after_tibetan s
  if tail = [] then 0
  else tail.countP (fun c => isAsciiDigit c || ":/%$£¥¢§¤@#^&*_=\\|~".toList.contains c)

/-- Strict lexicographic order on integer triples, the comparison Python uses
for roman-tail quality tuples. -/
def tripleLt (x y : ℤ × ℤ × ℤ) : Prop :=
  x.1 < y.1 ∨ (x.1 = y.1 ∧ (x.2.1 < y.2.1 ∨ (x.2.1 = y.2.1 ∧ x.2.2 < y.2.2)))

instance : DecidablePred (fun p : (ℤ × ℤ × ℤ) × (ℤ × ℤ × ℤ) => tripleLt p.1 p.2) :=
  fun p => by unfold tripleLt; infer_instance

instance (x y : ℤ × ℤ × ℤ) : Decidable (tripleLt x y) := by
  unfold tripleLt; infer_instance

/-- str.rstrip(). -/
def pyRstrip (l : List Char) : List Char :=
  (l.reverse.dropWhile isPySpace).reverse

end WtSOCR

namespace WtSOCR

/-- The decision tail of should_replace (everything after the guard chain of
lines 1112-1125), factored out over the already-normalized primary a and
secondary b, their similarity score and diacritic counts. -/
def should_replace_decide (a b : List Char) (minSim minSimDia minSimTib : ℚ)
    (similarity : ℚ) (a_d b_d : Nat) : Bool × String × ℚ × Nat × Nat :=
  if b_d > a_d then
    if similarity < minSim then
      if similarity < minSimDia then
        if similarity < minSimTib then
          (false, "similarity_too_low", similarity, a_d, b_d)
        else if tibetan_anchor_for_merge a ≠ [] ∧
            tibetan_anchor_for_merge a = tibetan_anchor_for_merge b then
          (true, "replace_tibetan_anchor", similarity, a_d, b_d)
        else (false, "similarity_too_low", similarity, a_d, b_d)
      else if base_equivalent_for_merge a = base_equivalent_for_merge b then
        (true, "replace_diacritic_only", similarity, a_d, b_d)
      else if tibetan_anchor_for_merge a ≠ [] ∧
          tibetan_anchor_for_merge a = tibetan_anchor_for_merge b then
        (true, "replace_tibetan_anchor", similarity, a_d, b_d)
      else (false, "similarity_too_low", similarity, a_d, b_d)
    else (true, "replace", similarity, a_d, b_d)
  else
    -- High-confidence OCR-confusable improvement without diacritic gain.
    if similarity ≥ max minSim (23/25) ∧
        countOcrSuspect none a > countOcrSuspect none b ∧
        normalize_ocr_confusables a = normalize_ocr_confusables b then
      (true, "replace_confusable_gain", similarity, a_d, b_d)
    else if b_d ≤ a_d then
      if tibetan_anchor_for_merge a ≠ [] ∧ tibetan_anchor_for_merge b ≠ [] ∧
          tibetan_anchor_for_merge a = tibetan_anchor_for_merge b ∧
          similarity ≥ minSimTib ∧
          (tripleLt (roman_tail_quality_score a) (roman_tail_quality_score b) ∧
            (((roman_tail_quality_score b).2.1 - (roman_tail_quality_score a).2.1 ≥ 1 ∨
              (roman_tail_quality_score b).2.2 > (roman_tail_quality_score a).2.2) ∨
             (roman_tail_noise_score a ≥ 2 ∧
              roman_tail_noise_score b < roman_tail_noise_score a ∧
              (roman_tail_quality_score b).1 - (roman_tail_quality_score a).1 ≥ 2 ∧
              (roman_tail_quality_score b).2.1 ≥ (roman_tail_quality_score a).2.1))) then
        (true, "replace_headword_tail_cleanup", similarity, a_d, b_d)
      else if similarity ≥ minSimDia ∧
          base_equivalent_for_merge a = base_equivalent_for_merge b ∧
          (a.any isDiacriticChar ∨ b.any isDiacriticChar) then
        (true, "replace_diacritic_only", similarity, a_d, b_d)
      else (false, "no_diacritic_gain", similarity, a_d, b_d)
    -- Unreachable tail of the Python function (b_d ≤ a_d always holds here),
    -- kept for structural fidelity.
    else if similarity < minSim then
      (false, "similarity_too_low", similarity, a_d, b_d)
    else (true, "replace", similarity, a_d, b_d)

/-- The similarity score of should_replace, line 1126: SequenceMatcher ratio
of the normalized texts, or 0.0 when either is empty. -/
def arbiter_similarity (a_text b_text : List Char) : ℚ :=
  if normalize_text a_text ≠ [] ∧ normalize_text b_text ≠ [] then
    pyRatio (normalize_text a_text) (normalize_text b_text)
  else 0

/-- should_replace, line 1105: the Replacement Arbiter.  Returns
(use_b, reason, similarity, a_diacritics, b_diacritics). -/
def should_replace (a_text b_text : List Char)
    (minSim minSimDia minSimTib : ℚ) : Bool × String × ℚ × Nat × Nat :=
  let a := normalize_text a_text
  let b := normalize_text b_text
  if b = [] then (false, "empty_b", 0, 0, 0)
  else if hasDev b then (false, "unexpected_devanagari", 0, 0, 0)
  else if hasTib a ∧ ¬ hasTib b then (false, "lost_tibetan_script", 0, 0, 0)
  else if a ≠ [] ∧ ((b.length : ℚ) / a.length < 1/2 ∨ (b.length : ℚ) / a.length > 9/5) then
    (false, "length_ratio_out_of_range", 0, countDiacritics a, countDiacritics b)
  else
    should_replace_decide a b minSim minSimDia minSimTib
      (arbiter_similarity a_text b_text) (countDiacritics a) (countDiacritics b)

/-- maybe_splice_tibetan_prefix_with_b_tail, line 774: keep the Tibetan prefix
of the primary and adopt the secondary tail when the secondary dropped the
Tibetan script but improves the romanization tail.  Empty result = no splice. -/
def maybe_splice_tibetan_prefix_with_b_tail (a_text b_text : List Char)
    (minSimTib : ℚ) : List Char :=
  if a_text = [] ∨ b_text = [] then []
  else if hasTib b_text then []
  else
    let pr := split_tibetan_prefix_tail a_text
    if pr.1 = [] ∨ pr.2 = [] then []
    else
      let b_tail := normalize_text b_text
      if b_tail = [] ∨ ¬ hasLatin b_tail then []
      else if (b_tail.length : ℚ) / pr.2.length < 11/20 ∨
          (b_tail.length : ℚ) / pr.2.length > 9/5 then []
      else if pyRatio (base_equivalent_for_merge pr.2) (base_equivalent_for_merge b_tail)
          < minSimTib then []
      else if ¬ (pr.2.countP (fun c => isRomanTailSuspectChar c) >
            b_tail.countP (fun c => isRomanTailSuspectChar c) ∨
          countDiacritics b_tail > countDiacritics pr.2) then []
      else
        pyRstrip (pr.1 ++
          (if pr.1.getLast? = some ' ' ∨ b_tail = [] then [] else [' ']) ++ b_tail)

end WtSOCR

namespace WtSOCR

/-! ### Bridging lemmas: text normalization neither creates nor destroys
Tibetan-script code points -/

lemma isTibChar_pyCharNorm (c : Char) : isTibChar (pyCharNorm c) = isTibChar c := by
  unfold pyCharNorm
  split_ifs with h1 h2 h3 h4 h5
  · rcases h1 with h | h | h | h | h <;> subst h <;> decide
  · rcases h2 with h | h | h | h <;> subst h <;> decide
  · subst h3; decide
  · subst h4; decide
  · subst h5; decide
  · rfl

lemma tib_not_space (c : Char) (h : isTibChar c = true) : isPySpace c = false := by
  unfold isTibChar at h
  unfold isPySpace
  simp only [Bool.and_eq_true, decide_eq_true_eq] at h
  simp only [Bool.or_eq_false_iff, Bool.and_eq_false_iff, decide_eq_false_iff_not]
  omega

lemma any_dropWhile_eq (p q : Char → Bool) (hpq : ∀ c, q c = true → p c = false)
    (l : List Char) : (l.dropWhile p).any q = l.any q := by
  induction l with
  | nil => rfl
  | cons x xs ih =>
    by_cases hx : p x = true
    · rw [List.dropWhile_cons_of_pos hx, ih, List.any_cons]
      have hqx : q x = false := by
        cases hq : q x
        · rfl
        · rw [hpq x hq] at hx; exact absurd hx (by simp)
      rw [hqx, Bool.false_or]
    · rw [List.dropWhile_cons_of_neg hx]

lemma any_subRunsAux_eq (p q : Char → Bool) (hpq : ∀ c, q c = true → p c = false)
    (hsp : q ' ' = false) (f : Bool) (l : List Char) :
    (subRunsAux p f l).any q = l.any q := by
  induction l generalizing f with
  | nil => rfl
  | cons c cs ih =>
    rw [subRunsAux]
    by_cases hc : p c = true
    · have hqc : q c = false := by
        cases hq : q c
        · rfl
        · rw [hpq c hq] at hc; exact absurd hc (by simp)
      rw [if_pos hc, List.any_append, ih true, List.any_cons, hqc, Bool.false_or]
      cases f <;> simp [hsp]
    · rw [if_neg hc, List.any_cons, List.any_cons, ih false]

lemma any_subRuns_eq (p q : Char → Bool) (hpq : ∀ c, q c = true → p c = false)
    (hsp : q ' ' = false) (l : List Char) : (subRuns p l).any q = l.any q :=
  any_subRunsAux_eq p q hpq hsp false l

lemma hasTib_pyStrip (l : List Char) : hasTib (pyStrip l) = hasTib l := by
  unfold pyStrip hasTib
  rw [List.any_reverse, any_dropWhile_eq _ _ tib_not_space, List.any_reverse,
    any_dropWhile_eq _ _ tib_not_space]

/-- normalize_text preserves the presence of Tibetan-script code points in
both directions. -/
lemma hasTib_normalize (s : List Char) :
    hasTib (normalize_text s) = hasTib s := by
  unfold normalize_text
  rw [hasTib_pyStrip]
  unfold hasTib
  rw [any_subRuns_eq _ _ tib_not_space (by decide), List.any_map]
  congr 1
  funext c
  exact isTibChar_pyCharNorm c

lemma head?_dropWhile_not (p : Char → Bool) (l : List Char) (c : Char)
    (h : (l.dropWhile p).head? = some c) : p c = false := by
  induction l with
  | nil => simp at h
  | cons x t ih =>
    by_cases hx : p x = true
    · rw [List.dropWhile_cons_of_pos hx] at h; exact ih h
    · rw [List.dropWhile_cons_of_neg hx] at h
      simp only [List.head?_cons, Option.some.injEq] at h
      subst h
      simpa using hx

lemma normalize_text_getLast_not_space (s : List Char) (c : Char)
    (h : (normalize_text s).getLast? = some c) : isPySpace c = false := by
  unfold normalize_text pyStrip at h
  rw [List.getLast?_reverse] at h
  exact head?_dropWhile_not _ _ _ h

lemma pyRstrip_eq_self (l : List Char) (c : Char) (hl : l.getLast? = some c)
    (hc : isPySpace c = false) : pyRstrip l = l := by
  unfold pyRstrip
  have hh : l.reverse.head? = some c := by rw [List.head?_reverse]; exact hl
  obtain ⟨tl2, htl⟩ : ∃ tl2, l.reverse = c :: tl2 := by
    cases hrev : l.reverse with
    | nil => rw [hrev] at hh; simp at hh
    | cons x tl2 =>
      rw [hrev] at hh
      simp only [List.head?_cons, Option.some.injEq] at hh
      exact ⟨tl2, by rw [hh]⟩
  rw [htl, List.dropWhile_cons_of_neg (by simp [hc]), ← htl, List.reverse_reverse]

lemma split_pfx_hasTib (s : List Char)
    (h : (split_tibetan_prefix_tail s).1 ≠ []) :
    hasTib (split_tibetan_prefix_tail s).1 = true := by
  simp only [split_tibetan_prefix_tail] at h ⊢
  split_ifs at h ⊢ with h1 h2
  all_goals first
    | exact absurd rfl h
    | simpa using h2

/-- The guard chain of should_replace: every accepted replacement has a
non-empty secondary, no Devanagari, no lost Tibetan script, and an in-range
length ratio (when the primary is non-empty). -/
lemma should_replace_accept_guards (a b : List Char) (p d t : ℚ)
    (hacc : (should_replace a b p d t).1 = true) :
    normalize_text b ≠ [] ∧
    ¬ hasDev (normalize_text b) = true ∧
    ¬ (hasTib (normalize_text a) = true ∧ ¬ hasTib (normalize_text b) = true) ∧
    ¬ (normalize_text a ≠ [] ∧
        (((normalize_text b).length : ℚ) / (normalize_text a).length < 1/2 ∨
         ((normalize_text b).length : ℚ) / (normalize_text a).length > 9/5)) := by
  simp only [should_replace] at hacc
  split_ifs at hacc with h1 h2 h3 h4
  all_goals first
    | exact Bool.noConfusion hacc
    | exact ⟨h1, h2, h3, h4⟩

/-- The guard chain of maybe_splice_tibetan_prefix_with_b_tail: a non-empty
splice has a Tibetan headword and tail in the primary, a non-empty secondary
tail with in-range length ratio, and the result is the raw Tibetan headword
followed by the secondary tail. -/
lemma pyRstrip_append_tail (x y : List Char) (c : Char) (hy : y.getLast? = some c)
    (hc : isPySpace c = false) : pyRstrip (x ++ y) = x ++ y := by
  refine pyRstrip_eq_self _ c ?_ hc
  rw [List.getLast?_append_of_ne_nil]
  · exact hy
  · intro he; rw [he] at hy; simp at hy

/-- The guard chain of maybe_splice_tibetan_prefix_with_b_tail: a non-empty
splice has a Tibetan headword and tail in the primary, a non-empty secondary
tail with in-range length ratio, and the result is the raw Tibetan headword
followed by the secondary tail. -/
lemma splice_guards (a2 b2 : List Char) (t2 : ℚ)
    (h : maybe_splice_tibetan_prefix_with_b_tail a2 b2 t2 ≠ []) :
    (split_tibetan_prefix_tail a2).1 ≠ [] ∧
    (split_tibetan_prefix_tail a2).2 ≠ [] ∧
    normalize_text b2 ≠ [] ∧
    (11/20 : ℚ) ≤ ((normalize_text b2).length : ℚ) /
      (split_tibetan_prefix_tail a2).2.length ∧
    ((normalize_text b2).length : ℚ) / (split_tibetan_prefix_tail a2).2.length ≤ 9/5 ∧
    (∃ rest, maybe_splice_tibetan_prefix_with_b_tail a2 b2 t2 =
      (split_tibetan_prefix_tail a2).1 ++ rest) := by
  simp only [maybe_splice_tibetan_prefix_with_b_tail] at h ⊢
  split_ifs at h ⊢ with h1 h2 h3 h4 h5 h6 h7 h8
  any_goals exact absurd rfl h
  all_goals {
    have hbt : normalize_text b2 ≠ [] := fun hc => h4 (Or.inl hc)
    obtain ⟨c, hgl⟩ : ∃ c, (normalize_text b2).getLast? = some c := by
      cases hgl0 : (normalize_text b2).getLast? with
      | none => exact absurd (List.getLast?_eq_none_iff.mp hgl0) hbt
      | some c => exact ⟨c, rfl⟩
    have hcns := normalize_text_getLast_not_space b2 c hgl
    refine ⟨fun hc => h3 (Or.inl hc), fun hc => h3 (Or.inr hc), hbt,
      le_of_not_lt (fun hc => h5 (Or.inl hc)), le_of_not_lt (fun hc => h5 (Or.inr hc)),
      ?_⟩
    simp only [List.append_assoc, List.nil_append, List.singleton_append]
    first
      | exact ⟨_, pyRstrip_append_tail _ _ c hgl hcns⟩
      | exact ⟨_, pyRstrip_append_tail _ _ c
          (by simpa using (List.getLast?_append_of_ne_nil [' '] hbt).trans hgl) hcns⟩ }

end WtSOCR

namespace WtSOCR

/-- C1: for every primary text containing Tibetan-script code points, a
replacement accepted by should_replace has a secondary that also contains
Tibetan-script code points; and every non-empty result of the explicit splice
maybe_splice_tibetan_prefix_with_b_tail begins with the primary Tibetan
headword byte-identically (the headword extracted by
split_tibetan_prefix_tail, which itself carries Tibetan script). -/
theorem c1_script_preservation (a b : List Char) (p d t : ℚ)
    (htib : hasTib a = true)
    (hacc : (should_replace a b p d t).1 = true) :
    hasTib b = true ∧
    ∀ (a2 b2 : List Char) (t2 : ℚ),
      maybe_splice_tibetan_prefix_with_b_tail a2 b2 t2 ≠ [] →
      (∃ rest, maybe_splice_tibetan_prefix_with_b_tail a2 b2 t2 =
        (split_tibetan_prefix_tail a2).1 ++ rest) ∧
      hasTib (split_tibetan_prefix_tail a2).1 = true := by
  constructor
  · have hg := (should_replace_accept_guards a b p d t hacc).2.2.1
    rw [← hasTib_normalize b]
    by_contra hb
    exact hg ⟨by rw [hasTib_normalize]; exact htib, hb⟩
  · intro a2 b2 t2 hne
    obtain ⟨h1, _, _, _, _, hres⟩ := splice_guards a2 b2 t2 hne
    exact ⟨hres, split_pfx_hasTib a2 h1⟩

/-- Shared evaluation fact for the C1 and C4 witnesses: a concrete
Tibetan-headword line with a diacritic-gaining secondary is accepted at
thresholds (0.85, 0.60, 0.50). -/
lemma witness_accept_eval :
    (should_replace "ཀ gan".toList "ཀ gaṅ".toList (17/20) (3/5) (1/2)).1 = true := by
  simp only [should_replace]
  rw [if_neg (by decide), if_neg (by decide), if_neg (by decide)]
  rw [if_neg ?g4]
  case g4 =>
    rintro ⟨-, h⟩
    rw [show (normalize_text "ཀ gaṅ".toList).length = 5 from by decide,
      show (normalize_text "ཀ gan".toList).length = 5 from by decide] at h
    norm_num at h
  have hsim : arbiter_similarity "ཀ gan".toList "ཀ gaṅ".toList = 4/5 := by
    simp only [arbiter_similarity]
    rw [if_pos (by decide)]
    rw [show normalize_text "ཀ gan".toList = "ཀ gan".toList from by decide,
      show normalize_text "ཀ gaṅ".toList = "ཀ gaṅ".toList from by decide]
    simp only [pyRatio]
    rw [if_neg (by decide)]
    rw [show matchedTotal "ཀ gan".toList "ཀ gaṅ".toList
        ("ཀ gan".toList.length + "ཀ gaṅ".toList.length + 1) 0 "ཀ gan".toList.length
        0 "ཀ gaṅ".toList.length = 4 from by decide]
    rw [show "ཀ gan".toList.length = 5 from by decide,
      show "ཀ gaṅ".toList.length = 5 from by decide]
    norm_num
  rw [hsim]
  simp only [should_replace_decide]
  rw [if_pos (by decide), if_pos (by norm_num), if_neg (by norm_num),
    if_pos (by decide)]

/-- Witness for C1 at a concrete accepted replacement of a Tibetan-headword
line. -/
theorem c1_script_preservation_witness :
    hasTib "ཀ gan".toList = true ∧
    (should_replace "ཀ gan".toList "ཀ gaṅ".toList (17/20) (3/5) (1/2)).1 = true ∧
    hasTib "ཀ gaṅ".toList = true :=
  ⟨by decide, witness_accept_eval,
    (c1_script_preservation "ཀ gan".toList "ཀ gaṅ".toList (17/20) (3/5) (1/2)
      (by decide) witness_accept_eval).1⟩

/-- C4: every replacement with a non-empty normalized primary accepted by
should_replace has normalized length ratio within [0.5, 1.8], and every
non-empty splice has tail length ratio within [0.55, 1.8]. -/
theorem c4_length_ratio_guard (a b : List Char) (p d t : ℚ)
    (hne : normalize_text a ≠ [])
    (hacc : (should_replace a b p d t).1 = true) :
    ((1/2 : ℚ) ≤ ((normalize_text b).length : ℚ) / (normalize_text a).length ∧
      ((normalize_text b).length : ℚ) / (normalize_text a).length ≤ 9/5) ∧
    ∀ (a2 b2 : List Char) (t2 : ℚ),
      maybe_splice_tibetan_prefix_with_b_tail a2 b2 t2 ≠ [] →
      (11/20 : ℚ) ≤ ((normalize_text b2).length : ℚ) /
          (split_tibetan_prefix_tail a2).2.length ∧
      ((normalize_text b2).length : ℚ) / (split_tibetan_prefix_tail a2).2.length ≤ 9/5 := by
  constructor
  · have hg := (should_replace_accept_guards a b p d t hacc).2.2.2
    have hg2 : ¬ (((normalize_text b).length : ℚ) / (normalize_text a).length < 1/2 ∨
        ((normalize_text b).length : ℚ) / (normalize_text a).length > 9/5) :=
      fun hc => hg ⟨hne, hc⟩
    exact ⟨le_of_not_lt (fun hc => hg2 (Or.inl hc)),
      le_of_not_lt (fun hc => hg2 (Or.inr hc))⟩
  · intro a2 b2 t2 hne2
    obtain ⟨_, _, _, hlo, hhi, _⟩ := splice_guards a2 b2 t2 hne2
    exact ⟨hlo, hhi⟩

/-- Witness for C4 at a concrete accepted replacement. -/
theorem c4_length_ratio_guard_witness :
    normalize_text "ཀ gan".toList ≠ [] ∧
    (should_replace "ཀ gan".toList "ཀ gaṅ".toList (17/20) (3/5) (1/2)).1 = true ∧
    ((1/2 : ℚ) ≤ ((normalize_text "ཀ gaṅ".toList).length : ℚ) /
        (normalize_text "ཀ gan".toList).length ∧
      ((normalize_text "ཀ gaṅ".toList).length : ℚ) /
        (normalize_text "ཀ gan".toList).length ≤ 9/5) :=
  ⟨by decide, witness_accept_eval,
    (c4_length_ratio_guard "ཀ gan".toList "ཀ gaṅ".toList (17/20) (3/5) (1/2)
      (by decide) witness_accept_eval).1⟩

/-- The decision tail rejects everything when the primary is empty with zero
similarity and positive thresholds. -/
lemma should_replace_decide_empty_a (b : List Char) (p d t : ℚ) (bd : Nat)
    (hp : 0 < p) (hd : 0 < d) (ht : 0 < t) :
    (should_replace_decide [] b p d t 0 0 bd).1 = false := by
  simp only [should_replace_decide]
  by_cases hbd : bd > 0
  · rw [if_pos hbd, if_pos hp, if_pos hd, if_pos ht]
  · rw [if_neg hbd,
      if_neg (fun hc => absurd hc.1
        (not_le.mpr (lt_of_lt_of_le (by norm_num) (le_max_right p (23/25))))),
      if_pos (Nat.le_of_not_lt hbd),
      if_neg (fun hc => hc.1 rfl),
      if_neg (fun hc => absurd hc.1 (not_le.mpr hd))]

/-- C10: with positive similarity thresholds, a primary that normalizes to
the empty string is never replaced: should_replace rejects every secondary. -/
theorem c10_empty_primary_never_replaced (a b : List Char) (p d t : ℚ)
    (ha : normalize_text a = []) (hp : 0 < p) (hd : 0 < d) (ht : 0 < t) :
    (should_replace a b p d t).1 = false := by
  simp only [should_replace, arbiter_similarity, ha]
  by_cases hb : normalize_text b = []
  · rw [if_pos hb]
  · rw [if_neg hb]
    by_cases hdev : hasDev (normalize_text b) = true
    · rw [if_pos hdev]
    · rw [if_neg hdev,
        if_neg (fun hc => Bool.noConfusion hc.1),
        if_neg (fun hc => hc.1 rfl),
        if_neg (fun hc => hc.1 rfl)]
      exact should_replace_decide_empty_a _ p d t _ hp hd ht

/-- Witness for C10: a whitespace-only primary is rejected against a concrete
secondary at positive thresholds. -/
theorem c10_empty_primary_never_replaced_witness :
    normalize_text " ".toList = [] ∧ ((0:ℚ) < 1) ∧
    (should_replace " ".toList "x".toList 1 1 1).1 = false :=
  ⟨by decide, by norm_num,
    c10_empty_primary_never_replaced " ".toList "x".toList 1 1 1
      (by decide) (by norm_num) (by norm_num) (by norm_num)⟩

end WtSOCR

namespace WtSOCR

/-- The diacritic-gain branch of the decision tail as a single biconditional:
with ordered thresholds t ≤ d ≤ p and strictly more diacritics in the
secondary, acceptance is equivalent to the three-tier similarity rule. -/
lemma should_replace_decide_gain_iff (A B : List Char) (p d t sim : ℚ)
    (ad bd : Nat) (hdia : ad < bd) (hord1 : t ≤ d) (hord2 : d ≤ p) :
    (should_replace_decide A B p d t sim ad bd).1 = true ↔
      (p ≤ sim ∨
       (d ≤ sim ∧ base_equivalent_for_merge A = base_equivalent_for_merge B) ∨
       (t ≤ sim ∧ tibetan_anchor_for_merge A ≠ [] ∧
        tibetan_anchor_for_merge A = tibetan_anchor_for_merge B)) := by
  simp only [should_replace_decide]
  rw [if_pos hdia]
  by_cases h1 : sim < p
  · rw [if_pos h1]
    by_cases h2 : sim < d
    · rw [if_pos h2]
      by_cases h3 : sim < t
      · rw [if_pos h3]
        constructor
        · intro hc; exact Bool.noConfusion hc
        · rintro (hc | ⟨hc, -⟩ | ⟨hc, -, -⟩) <;> linarith
      · rw [if_neg h3]
        by_cases h4 : tibetan_anchor_for_merge A ≠ [] ∧
            tibetan_anchor_for_merge A = tibetan_anchor_for_merge B
        · rw [if_pos h4]
          exact iff_of_true rfl (Or.inr (Or.inr ⟨le_of_not_lt h3, h4.1, h4.2⟩))
        · rw [if_neg h4]
          constructor
          · intro hc; exact Bool.noConfusion hc
          · rintro (hc | ⟨hc, -⟩ | ⟨-, hc1, hc2⟩)
            · linarith
            · linarith
            · exact absurd ⟨hc1, hc2⟩ h4
    · rw [if_neg h2]
      by_cases h5 : base_equivalent_for_merge A = base_equivalent_for_merge B
      · rw [if_pos h5]
        exact iff_of_true rfl (Or.inr (Or.inl ⟨le_of_not_lt h2, h5⟩))
      · rw [if_neg h5]
        by_cases h6 : tibetan_anchor_for_merge A ≠ [] ∧
            tibetan_anchor_for_merge A = tibetan_anchor_for_merge B
        · rw [if_pos h6]
          exact iff_of_true rfl
            (Or.inr (Or.inr ⟨le_trans hord1 (le_of_not_lt h2), h6.1, h6.2⟩))
        · rw [if_neg h6]
          constructor
          · intro hc; exact Bool.noConfusion hc
          · rintro (hc | ⟨-, hc2⟩ | ⟨-, hc1, hc2⟩)
            · linarith
            · exact absurd hc2 h5
            · exact absurd ⟨hc1, hc2⟩ h6
  · rw [if_neg h1]
    exact iff_of_true rfl (Or.inl (le_of_not_lt h1))

/-- C3: past the earlier guards, with strictly more diacritics in the
secondary and thresholds ordered tibetan-anchor ≤ diacritic-only ≤ plain,
should_replace accepts exactly when similarity reaches the plain threshold,
or reaches the diacritic-only threshold with base-equivalent texts, or
reaches the Tibetan-anchor threshold with equal non-empty Tibetan anchors;
and any acceptance in this branch keeps at least as many diacritics. -/
theorem c3_diacritic_gain_rule (a b : List Char) (p d t : ℚ)
    (hb : ¬ normalize_text b = [])
    (hdev : ¬ hasDev (normalize_text b) = true)
    (htib : ¬ (hasTib (normalize_text a) = true ∧ ¬ hasTib (normalize_text b) = true))
    (hlen : ¬ (normalize_text a ≠ [] ∧
      (((normalize_text b).length : ℚ) / (normalize_text a).length < 1/2 ∨
       ((normalize_text b).length : ℚ) / (normalize_text a).length > 9/5)))
    (hdia : countDiacritics (normalize_text a) < countDiacritics (normalize_text b))
    (hord1 : t ≤ d) (hord2 : d ≤ p) :
    ((should_replace a b p d t).1 = true ↔
      (p ≤ arbiter_similarity a b ∨
       (d ≤ arbiter_similarity a b ∧
        base_equivalent_for_merge (normalize_text a) =
          base_equivalent_for_merge (normalize_text b)) ∨
       (t ≤ arbiter_similarity a b ∧
        tibetan_anchor_for_merge (normalize_text a) ≠ [] ∧
        tibetan_anchor_for_merge (normalize_text a) =
          tibetan_anchor_for_merge (normalize_text b)))) ∧
    ((should_replace a b p d t).1 = true →
      countDiacritics (normalize_text a) ≤ countDiacritics (normalize_text b)) := by
  refine ⟨?_, fun _ => le_of_lt hdia⟩
  simp only [should_replace]
  rw [if_neg hb, if_neg hdev, if_neg htib, if_neg hlen]
  exact should_replace_decide_gain_iff _ _ p d t _ _ _ hdia hord1 hord2

/-- Witness for C3 at the concrete diacritic-gaining pair: the line is
accepted via the diacritic-only tier. -/
theorem c3_diacritic_gain_rule_witness :
    countDiacritics (normalize_text "ཀ gan".toList) <
      countDiacritics (normalize_text "ཀ gaṅ".toList) ∧
    ((1/2 : ℚ) ≤ 3/5 ∧ (3/5 : ℚ) ≤ 17/20) ∧
    ((should_replace "ཀ gan".toList "ཀ gaṅ".toList (17/20) (3/5) (1/2)).1 = true ↔
      ((17/20 : ℚ) ≤ arbiter_similarity "ཀ gan".toList "ཀ gaṅ".toList ∨
       ((3/5 : ℚ) ≤ arbiter_similarity "ཀ gan".toList "ཀ gaṅ".toList ∧
        base_equivalent_for_merge (normalize_text "ཀ gan".toList) =
          base_equivalent_for_merge (normalize_text "ཀ gaṅ".toList)) ∨
       ((1/2 : ℚ) ≤ arbiter_similarity "ཀ gan".toList "ཀ gaṅ".toList ∧
        tibetan_anchor_for_merge (normalize_text "ཀ gan".toList) ≠ [] ∧
        tibetan_anchor_for_merge (normalize_text "ཀ gan".toList) =
          tibetan_anchor_for_merge (normalize_text "ཀ gaṅ".toList)))) :=
  ⟨by decide, by norm_num,
    (c3_diacritic_gain_rule "ཀ gan".toList "ཀ gaṅ".toList (17/20) (3/5) (1/2)
      (by decide) (by decide) (by decide)
      (by
        rintro ⟨-, h⟩
        rw [show (normalize_text "ཀ gaṅ".toList).length = 5 from by decide,
          show (normalize_text "ཀ gan".toList).length = 5 from by decide] at h
        norm_num at h)
      (by decide) (by norm_num) (by norm_num)).1⟩

end WtSOCR

namespace WtSOCR

/-! ### apply_approved_rewrites.py -/

/-- Row filtering of load_rewrites, line 29: strip both cells; a row with an
empty from or to token, or mapping a token to itself, is skipped. -/
def validRow (row : List Char × List Char) : Option (List Char × List Char) :=
  let src := pyStrip row.1
  let dst := pyStrip row.2
  if src = [] ∨ dst = [] ∨ src = dst then none else some (src, dst)

/-- dict.get over the insertion-ordered association list modelling the
rewrites dict. -/
def assocLookup (k : List Char) : List (List Char × List Char) → Option (List Char)
  | [] => none
  | kv :: rest => if kv.1 = k then some kv.2 else assocLookup k rest

/-- One iteration of the row loop of load_rewrites, lines 28-37: skip
degenerate rows, record a conflict triple when the source token is already
mapped to a different target, otherwise insert the new mapping. -/
def load_step (acc : List (List Char × List Char) × List (List Char × List Char × List Char))
    (row : List Char × List Char) :
    List (List Char × List Char) × List (List Char × List Char × List Char) :=
  match validRow row with
  | none => acc
  | some (src, dst) =>
    match assocLookup src acc.1 with
    | some prev => if prev ≠ dst then (acc.1, acc.2 ++ [(src, prev, dst)]) else acc
    | none => (acc.1 ++ [(src, dst)], acc.2)

/-- load_rewrites, line 20: fold the rows into (rewrites dict, conflict
triples). -/
def load_rewrites (rows : List (List Char × List Char)) :
    List (List Char × List Char) × List (List Char × List Char × List Char) :=
  rows.foldl load_step ([], [])

/-- main, lines 110-117: when load_rewrites reports conflicts, the run writes
rewrite_conflicts.tsv (the error value, one row per conflicting triple) and
terminates via SystemExit before touching any input file; otherwise it
proceeds and applies the loaded mapping to every input.  The downstream file
application (apply_text) happens only in the ok case and is not needed by the
claims about the decision. -/
def apply_approved_main (rows : List (List Char × List Char)) :
    Except (List (List Char × List Char × List Char)) (List (List Char × List Char)) :=
  if (load_rewrites rows).2 ≠ [] then Except.error (load_rewrites rows).2
  else Except.ok (load_rewrites rows).1

/-- The rows that survive the degenerate-row filter. -/
def valid_rewrite_rows (rows : List (List Char × List Char)) :
    List (List Char × List Char) :=
  rows.filterMap validRow

end WtSOCR

namespace WtSOCR

/-- Consistency of one valid row against the accumulated mapping and its
fellow rows: an already-mapped source must map to the same target; an unmapped
source requires all rows sharing it to agree. -/
def keyConsistent (m : List (List Char × List Char))
    (vrows : List (List Char × List Char)) (r : List Char × List Char) : Prop :=
  match assocLookup r.1 m with
  | some v => v = r.2
  | none => ∀ r2 ∈ vrows, r2.1 = r.1 → r2.2 = r.2

lemma assocLookup_append_self (m : List (List Char × List Char)) (s v : List Char)
    (h : assocLookup s m = none) : assocLookup s (m ++ [(s, v)]) = some v := by
  induction m with
  | nil => simp [assocLookup]
  | cons kv rest ih =>
    rw [List.cons_append]
    simp only [assocLookup] at h ⊢
    by_cases hk : kv.1 = s
    · rw [if_pos hk] at h; exact absurd h (by simp)
    · rw [if_neg hk] at h ⊢; exact ih h

lemma assocLookup_append_other (m : List (List Char × List Char)) (k s v : List Char)
    (h : k ≠ s) : assocLookup k (m ++ [(s, v)]) = assocLookup k m := by
  induction m with
  | nil =>
    rw [List.nil_append]
    simp only [assocLookup]
    rw [if_neg (fun hc => h hc.symm)]
  | cons kv rest ih =>
    rw [List.cons_append]
    simp only [assocLookup]
    by_cases hk : kv.1 = k
    · rw [if_pos hk, if_pos hk]
    · rw [if_neg hk, if_neg hk]; exact ih

/-- The conflict list of the load_rewrites fold is empty exactly when the
starting conflict list is empty and every valid row is consistent with the
starting mapping and with its fellow valid rows. -/
lemma load_fold_conf_nil_iff (rows : List (List Char × List Char)) :
    ∀ (m : List (List Char × List Char))
      (conf : List (List Char × List Char × List Char)),
    (rows.foldl load_step (m, conf)).2 = [] ↔
      (conf = [] ∧ ∀ r ∈ valid_rewrite_rows rows,
        keyConsistent m (valid_rewrite_rows rows) r) := by
  induction rows with
  | nil => intro m conf; simp [valid_rewrite_rows]
  | cons row rest ih =>
    intro m conf
    rw [List.foldl_cons]
    cases hv : validRow row with
    | none =>
      have hstep : load_step (m, conf) row = (m, conf) := by simp [load_step, hv]
      have hval : valid_rewrite_rows (row :: rest) = valid_rewrite_rows rest := by
        simp [valid_rewrite_rows, List.filterMap_cons, hv]
      rw [hstep, ih, hval]
    | some sv =>
      obtain ⟨s, v⟩ := sv
      have hval : valid_rewrite_rows (row :: rest) =
          (s, v) :: valid_rewrite_rows rest := by
        simp [valid_rewrite_rows, List.filterMap_cons, hv]
      cases hl : assocLookup s m with
      | some prev =>
        by_cases hpv : prev = v
        · have hstep : load_step (m, conf) row = (m, conf) := by
            simp [load_step, hv, hl, hpv]
          rw [hstep, ih, hval]
          refine and_congr_right fun _ => ⟨fun hC r hr => ?_, fun hC r hr => ?_⟩
          · rcases List.mem_cons.mp hr with rfl | hr1
            · simp only [keyConsistent, hl]; exact hpv
            · have hCr := hC r hr1
              cases hlr : assocLookup r.1 m with
              | some w => simpa only [keyConsistent, hlr] using hCr
              | none =>
                simp only [keyConsistent, hlr] at hCr ⊢
                intro r2 hr2 hk
                rcases List.mem_cons.mp hr2 with rfl | hr3
                · exfalso
                  have hk2 : s = r.1 := hk
                  rw [hk2] at hl
                  rw [hl] at hlr
                  exact Option.noConfusion hlr
                · exact hCr r2 hr3 hk
          · have hCr := hC r (List.mem_cons_of_mem _ hr)
            cases hlr : assocLookup r.1 m with
            | some w => simpa only [keyConsistent, hlr] using hCr
            | none =>
              simp only [keyConsistent, hlr] at hCr ⊢
              intro r2 hr2 hk
              exact hCr r2 (List.mem_cons_of_mem _ hr2) hk
        · have hstep : load_step (m, conf) row = (m, conf ++ [(s, prev, v)]) := by
            simp [load_step, hv, hl, hpv]
          rw [hstep, ih]
          refine iff_of_false (fun hc => by simp at hc) (fun hc => ?_)
          have hCs := hc.2 (s, v) (by rw [hval]; exact List.mem_cons_self _ _)
          simp only [keyConsistent, hl] at hCs
          exact hpv hCs
      | none =>
        have hstep : load_step (m, conf) row = (m ++ [(s, v)], conf) := by
          simp [load_step, hv, hl]
        rw [hstep, ih, hval]
        refine and_congr_right fun _ => ⟨fun hC r hr => ?_, fun hC r hr => ?_⟩
        · rcases List.mem_cons.mp hr with rfl | hr1
          · simp only [keyConsistent, hl]
            intro r2 hr2 hk
            rcases List.mem_cons.mp hr2 with rfl | hr3
            · rfl
            · have hC2 := hC r2 hr3
              have hk2 : r2.1 = s := hk
              simp only [keyConsistent, hk2, assocLookup_append_self m s v hl] at hC2
              exact hC2.symm
          · have hCr := hC r hr1
            by_cases hks : r.1 = s
            · simp only [keyConsistent, hks, assocLookup_append_self m s v hl] at hCr
              simp only [keyConsistent, hks, hl]
              intro r2 hr2 hk
              rcases List.mem_cons.mp hr2 with rfl | hr3
              · exact hCr
              · have hC2 := hC r2 hr3
                have hk2 : r2.1 = s := hk
                simp only [keyConsistent, hk2, assocLookup_append_self m s v hl] at hC2
                rw [← hC2]
                exact hCr
            · have hl2 := assocLookup_append_other m r.1 s v hks
              cases hlr : assocLookup r.1 m with
              | some w =>
                simp only [keyConsistent, hl2, hlr] at hCr
                simp only [keyConsistent, hlr]
                exact hCr
              | none =>
                simp only [keyConsistent, hl2, hlr] at hCr
                simp only [keyConsistent, hlr]
                intro r2 hr2 hk
                rcases List.mem_cons.mp hr2 with rfl | hr3
                · exact absurd hk.symm hks
                · exact hCr r2 hr3 hk
        · have hCr := hC r (List.mem_cons_of_mem _ hr)
          have hCs := hC (s, v) (List.mem_cons_self _ _)
          simp only [keyConsistent, hl] at hCs
          by_cases hks : r.1 = s
          · simp only [keyConsistent, hks, assocLookup_append_self m s v hl]
            exact (hCs r (List.mem_cons_of_mem _ hr) hks).symm
          · have hl2 := assocLookup_append_other m r.1 s v hks
            cases hlr : assocLookup r.1 m with
            | some w =>
              simp only [keyConsistent, hlr] at hCr
              simp only [keyConsistent, hl2, hlr]
              exact hCr
            | none =>
              simp only [keyConsistent, hlr] at hCr
              simp only [keyConsistent, hl2, hlr]
              intro r2 hr2 hk
              exact hCr r2 (List.mem_cons_of_mem _ hr2) hk

/-- C2 counterexample: the table maps a to b and a to a — two rows with the
same from_token and two different to_tokens — yet the run does not fail
closed: the identity row is skipped by load_rewrites, no conflict is
recorded, and the rewrite a → b is applied. -/
theorem c2_conflict_counterexample :
    (("a".toList, "b".toList) ∈
        [("a".toList, "b".toList), ("a".toList, "a".toList)] ∧
     ("a".toList, "a".toList) ∈
        [("a".toList, "b".toList), ("a".toList, "a".toList)] ∧
     "b".toList ≠ "a".toList) ∧
    apply_approved_main [("a".toList, "b".toList), ("a".toList, "a".toList)] =
      Except.ok [("a".toList, "b".toList)] :=
  ⟨⟨by decide, by decide, by decide⟩, by rfl⟩

/-- C2 (amended): when two rows that survive the degenerate-row filter
(non-empty stripped tokens, from ≠ to) map the same from_token to two
different to_tokens, the bulk-approval run fails closed — it returns the
conflict artifact listing the conflicting triples and applies zero rewrites —
and with no such pair it proceeds with the loaded mapping. -/
theorem c2_conflict_safety (rows : List (List Char × List Char)) :
    ((∃ r1 ∈ valid_rewrite_rows rows, ∃ r2 ∈ valid_rewrite_rows rows,
        r1.1 = r2.1 ∧ r1.2 ≠ r2.2) →
      apply_approved_main rows = Except.error (load_rewrites rows).2 ∧
      (load_rewrites rows).2 ≠ []) ∧
    (¬ (∃ r1 ∈ valid_rewrite_rows rows, ∃ r2 ∈ valid_rewrite_rows rows,
        r1.1 = r2.1 ∧ r1.2 ≠ r2.2) →
      apply_approved_main rows = Except.ok (load_rewrites rows).1) := by
  have hiff : (load_rewrites rows).2 = [] ↔
      ¬ ∃ r1 ∈ valid_rewrite_rows rows, ∃ r2 ∈ valid_rewrite_rows rows,
        r1.1 = r2.1 ∧ r1.2 ≠ r2.2 := by
    rw [load_rewrites, load_fold_conf_nil_iff]
    constructor
    · rintro ⟨-, hC⟩ ⟨r1, hr1, r2, hr2, hkey, hne⟩
      have hthis := hC r1 hr1
      simp only [keyConsistent, assocLookup] at hthis
      exact hne (hthis r2 hr2 hkey.symm).symm
    · intro hno
      refine ⟨rfl, fun r hr => ?_⟩
      simp only [keyConsistent, assocLookup]
      intro r2 hr2 hk
      by_contra hne
      exact hno ⟨r, hr, r2, hr2, hk.symm, fun hc => hne hc.symm⟩
  constructor
  · intro hex
    have h2 : (load_rewrites rows).2 ≠ [] := fun hc => (hiff.mp hc) hex
    rw [apply_approved_main, if_pos h2]
    exact ⟨rfl, h2⟩
  · intro hno
    have h2 := hiff.mpr hno
    rw [apply_approved_main, if_neg (fun hc => hc h2)]

/-- Witness for C2 at a concrete genuinely conflicting table (a → b, a → c):
the run aborts with the conflict artifact. -/
theorem c2_conflict_safety_witness :
    (∃ r1 ∈ valid_rewrite_rows [("a".toList, "b".toList), ("a".toList, "c".toList)],
     ∃ r2 ∈ valid_rewrite_rows [("a".toList, "b".toList), ("a".toList, "c".toList)],
        r1.1 = r2.1 ∧ r1.2 ≠ r2.2) ∧
    apply_approved_main [("a".toList, "b".toList), ("a".toList, "c".toList)] =
      Except.error
        (load_rewrites [("a".toList, "b".toList), ("a".toList, "c".toList)]).2 ∧
    (load_rewrites [("a".toList, "b".toList), ("a".toList, "c".toList)]).2 ≠ [] :=
  ⟨by decide, (c2_conflict_safety _).1 (by decide)⟩

end WtSOCR

namespace WtSOCR

/-! ### choose_best_b_text, line 941: the Candidate Selector -/

/-- The script-safety indicator of a candidate, line 951: no Devanagari, and
Tibetan retained whenever the primary carries Tibetan script. -/
def candidate_script_ok (a_has_tib : Bool) (bt : List Char) : Bool :=
  !hasDev (normalize_text bt) && (!a_has_tib || hasTib (normalize_text bt))

/-- The eight-component Python comparison tuple of a candidate
(script_ok, letters, -suspects, tail diacritics, diacritics, similarity,
length closeness, length). -/
structure BKey where
  scriptOk : ℤ
  letters : ℤ
  negSuspects : ℤ
  tailD : ℤ
  diacritics : ℤ
  sim : ℚ
  lenCloseness : ℚ
  blen : ℤ

/-- Strict lexicographic comparison of candidate keys, matching the Python
tuple comparison. -/
def bkeyLt (x y : BKey) : Prop :=
  x.scriptOk < y.scriptOk ∨ (x.scriptOk = y.scriptOk ∧
  (x.letters < y.letters ∨ (x.letters = y.letters ∧
  (x.negSuspects < y.negSuspects ∨ (x.negSuspects = y.negSuspects ∧
  (x.tailD < y.tailD ∨ (x.tailD = y.tailD ∧
  (x.diacritics < y.diacritics ∨ (x.diacritics = y.diacritics ∧
  (x.sim < y.sim ∨ (x.sim = y.sim ∧
  (x.lenCloseness < y.lenCloseness ∨ (x.lenCloseness = y.lenCloseness ∧
  x.blen < y.blen)))))))))))))

instance (x y : BKey) : Decidable (bkeyLt x y) := by
  unfold bkeyLt; infer_instance

/-- The scoring tuple of one candidate, lines 948-963. -/
def candidate_key (a_norm : List Char) (a_has_tib : Bool) (bt : List Char) : BKey :=
  let b_norm := normalize_text bt
  let b_d : ℤ := countDiacritics b_norm
  let sim : ℚ := if a_norm ≠ [] ∧ b_norm ≠ [] then pyRatio a_norm b_norm else 0
  let script_ok : ℤ := if candidate_script_ok a_has_tib bt then 1 else 0
  let q := roman_tail_quality_score b_norm
  let len_ratio : ℚ :=
    if a_norm.length ≠ 0 then (b_norm.length : ℚ) / a_norm.length else 0
  let len_closeness : ℚ := if a_norm ≠ [] then -|len_ratio - 1| else -1
  if a_has_tib then
    ⟨script_ok, q.1, q.2.1, q.2.2, b_d, sim, len_closeness, b_norm.length⟩
  else
    ⟨script_ok, -1, -9999, -1, b_d, sim, len_closeness, b_norm.length⟩

/-- The initial best_key of choose_best_b_text, line 946. -/
def initBKey : BKey := ⟨-1, -1, -9999, -1, -1, -1, -10, -1⟩

/-- One iteration of the candidate loop: take the candidate whenever its key
strictly beats the current best key. -/
def choose_step (a_norm : List Char) (a_has_tib : Bool)
    (st : List Char × String × BKey) (c : String × List Char) :
    List Char × String × BKey :=
  let key := candidate_key a_norm a_has_tib c.2
  if bkeyLt st.2.2 key then (c.2, c.1, key) else st

/-- choose_best_b_text, line 941: fold the candidates and return the best
(text, source tag). -/
def choose_best_b_text (a_text : List Char) (cands : List (String × List Char)) :
    List Char × String :=
  let a_norm := normalize_text a_text
  let st := cands.foldl (choose_step a_norm (hasTib a_norm)) ([], "", initBKey)
  (st.1, st.2.1)

lemma candidate_key_scriptOk (a_norm : List Char) (atib : Bool) (bt : List Char) :
    (candidate_key a_norm atib bt).scriptOk =
      (if candidate_script_ok atib bt then 1 else 0) := by
  simp only [candidate_key]
  split_ifs <;> rfl

/-- The fold of choose_best_b_text prefers script-safe candidates: whenever
a script-safe candidate exists, the final state holds one. -/
lemma choose_fold_safe (na : List Char) (atib : Bool) :
    ∀ (cands : List (String × List Char)) (st : List Char × String × BKey),
    (st.2.2.scriptOk = 1 → candidate_script_ok atib st.1 = true) →
    st.2.2.scriptOk ≤ 1 →
    (((cands.foldl (choose_step na atib) st).2.2.scriptOk = 1 →
        candidate_script_ok atib (cands.foldl (choose_step na atib) st).1 = true) ∧
     (cands.foldl (choose_step na atib) st).2.2.scriptOk ≤ 1 ∧
     ((∃ c ∈ cands, candidate_script_ok atib c.2 = true) ∨ st.2.2.scriptOk = 1 →
        (cands.foldl (choose_step na atib) st).2.2.scriptOk = 1)) := by
  intro cands
  induction cands with
  | nil =>
    intro st h1 h2
    refine ⟨h1, h2, ?_⟩
    rintro (⟨c, hc, -⟩ | h)
    · exact absurd hc (List.not_mem_nil c)
    · exact h
  | cons c rest ih =>
    intro st h1 h2
    rw [List.foldl_cons]
    have hk := candidate_key_scriptOk na atib c.2
    by_cases hflag : candidate_script_ok atib c.2 = true
    · rw [if_pos hflag] at hk
      by_cases hlt : bkeyLt st.2.2 (candidate_key na atib c.2)
      · have hstep : choose_step na atib st c = (c.2, c.1, candidate_key na atib c.2) := by
          simp only [choose_step, if_pos hlt]
        rw [hstep]
        have hrec := ih (c.2, c.1, candidate_key na atib c.2)
          (fun _ => hflag) (by rw [hk])
        refine ⟨hrec.1, hrec.2.1, fun _ => hrec.2.2 (Or.inr hk)⟩
      · have hstep : choose_step na atib st c = st := by
          simp only [choose_step, if_neg hlt]
        rw [hstep]
        have hrec := ih st h1 h2
        -- a safe candidate that fails to beat the best means the best is
        -- already script-safe (the first key component dominates)
        have hst1 : st.2.2.scriptOk = 1 := by
          by_contra hne
          exact hlt (Or.inl (by rw [hk]; omega))
        exact ⟨hrec.1, hrec.2.1, fun _ => hrec.2.2 (Or.inr hst1)⟩
    · have hflag0 : (candidate_key na atib c.2).scriptOk = 0 := by
        rw [hk, if_neg hflag]
      by_cases hlt : bkeyLt st.2.2 (candidate_key na atib c.2)
      · have hstep : choose_step na atib st c = (c.2, c.1, candidate_key na atib c.2) := by
          simp only [choose_step, if_pos hlt]
        rw [hstep]
        have hrec := ih (c.2, c.1, candidate_key na atib c.2)
          (fun h0 => by rw [hflag0] at h0; omega) (by rw [hflag0]; omega)
        refine ⟨hrec.1, hrec.2.1, ?_⟩
        rintro (⟨c2, hc2, hsafe⟩ | hst1)
        · rcases List.mem_cons.mp hc2 with rfl | hc3
          · exact absurd hsafe hflag
          · exact hrec.2.2 (Or.inl ⟨c2, hc3, hsafe⟩)
        · -- the running best was script-safe, so its key could not lose to a
          -- script-unsafe candidate
          exfalso
          rcases hlt with hlt1 | ⟨heq, -⟩
          · rw [hst1, hflag0] at hlt1; omega
          · rw [hst1, hflag0] at heq; omega
      · have hstep : choose_step na atib st c = st := by
          simp only [choose_step, if_neg hlt]
        rw [hstep]
        have hrec := ih st h1 h2
        refine ⟨hrec.1, hrec.2.1, ?_⟩
        rintro (⟨c2, hc2, hsafe⟩ | hst1)
        · rcases List.mem_cons.mp hc2 with rfl | hc3
          · exact absurd hsafe hflag
          · exact hrec.2.2 (Or.inl ⟨c2, hc3, hsafe⟩)
        · exact hrec.2.2 (Or.inr hst1)

end WtSOCR

namespace WtSOCR

/-- C6 counterexample: the claim that choose_best_b_text never returns a
script-unsafe candidate fails when every candidate is unsafe — a single
Devanagari-bearing candidate scores (0, ...) which still beats the initial
key (-1, ...), so it is returned. -/
theorem c6_counterexample :
    (choose_best_b_text "ka".toList [("v", "क".toList)]).1 = "क".toList ∧
    (choose_best_b_text "ka".toList [("v", "क".toList)]).2 = "v" ∧
    hasDev "क".toList = true ∧
    candidate_script_ok (hasTib (normalize_text "ka".toList)) "क".toList = false := by
  refine ⟨?_, ?_, by decide, by decide⟩ <;>
    · show _ = _
      decide

/-- C6 (amended): choose_best_b_text always prefers script-safe candidates —
whenever at least one candidate neither introduces Devanagari nor (for a
Tibetan-bearing primary) loses Tibetan script, the returned candidate has no
Devanagari and retains Tibetan script if the primary had it.  A script-unsafe
candidate can only be returned when no script-safe candidate exists. -/
theorem c6_script_safety (a_text : List Char) (cands : List (String × List Char))
    (hex : ∃ c ∈ cands,
      candidate_script_ok (hasTib (normalize_text a_text)) c.2 = true) :
    hasDev (normalize_text (choose_best_b_text a_text cands).1) = false ∧
    (hasTib (normalize_text a_text) = true →
      hasTib (normalize_text (choose_best_b_text a_text cands).1) = true) := by
  have hinv := choose_fold_safe (normalize_text a_text)
    (hasTib (normalize_text a_text)) cands ([], "", initBKey)
    (fun h => by simp [initBKey] at h) (by simp [initBKey])
  have hok := hinv.1 (hinv.2.2 (Or.inl hex))
  have hbest : (choose_best_b_text a_text cands).1 =
      (cands.foldl (choose_step (normalize_text a_text)
        (hasTib (normalize_text a_text))) ([], "", initBKey)).1 := rfl
  rw [hbest]
  simp only [candidate_script_ok, Bool.and_eq_true, Bool.or_eq_true,
    Bool.not_eq_true'] at hok
  refine ⟨hok.1, fun htib => ?_⟩
  rcases hok.2 with h | h
  · rw [htib] at h; exact absurd h (by simp)
  · exact h

/-- Witness for C6: with one Devanagari candidate and one clean candidate the
clean one is returned. -/
theorem c6_script_safety_witness :
    (∃ c ∈ [("v", "क".toList), ("w", "ka".toList)],
      candidate_script_ok (hasTib (normalize_text "ka".toList)) c.2 = true) ∧
    hasDev (normalize_text
      (choose_best_b_text "ka".toList [("v", "क".toList), ("w", "ka".toList)]).1) = false :=
  ⟨by decide,
    (c6_script_safety "ka".toList [("v", "क".toList), ("w", "ka".toList)]
      (by decide)).1⟩

end WtSOCR

namespace WtSOCR

/-! ### token_variant_report.py: the Corpus Aggregator rewrite-candidate
emission -/

/-- CONFUSABLE_FROM, line 59: character-for-character OCR-confusable folding. -/
def confusableFromChar (c : Char) : Char :=
  match c with
  | '$' => 'ś' | 'ı' => 'i' | 'I' => 'l' | 'ş' => 'ṣ' | 'Ş' => 'Ṣ'
  | 'ņ' => 'ṇ' | 'Ņ' => 'Ṇ' | 'ã' => 'ā' | 'Ã' => 'Ā' | 'ù' => 'ṅ'
  | 'ñ' => 'ṅ' | 'ń' => 'ṅ' | 'ä' => 'ā' | 'Ä' => 'Ā' | 'ü' => 'ū' | 'Ü' => 'Ū'
  | other => other

/-- The local simplify of conservative_pair_allowed, line 232: apply
CONFUSABLE_FROM to every character. -/
def simplifyConfusables (s : List Char) : List Char := s.map confusableFromChar

/-- CANON_MAP, line 78: strip diacritics, umlauts and confusable letters down
to plain ASCII. -/
def canonMapChar (c : Char) : Char :=
  match c with
  | 'ā' => 'a' | 'Ā' => 'a' | 'ī' => 'i' | 'Ī' => 'i' | 'ū' => 'u' | 'Ū' => 'u'
  | 'ṛ' => 'r' | 'Ṛ' => 'r' | 'ṝ' => 'r' | 'Ṝ' => 'r' | 'ḷ' => 'l' | 'Ḷ' => 'l'
  | 'ḹ' => 'l' | 'Ḹ' => 'l' | 'ṅ' => 'n' | 'Ṅ' => 'n' | 'ñ' => 'n' | 'Ñ' => 'n'
  | 'ṭ' => 't' | 'Ṭ' => 't' | 'ḍ' => 'd' | 'Ḍ' => 'd' | 'ṇ' => 'n' | 'Ṇ' => 'n'
  | 'ś' => 's' | 'Ś' => 's' | 'ṣ' => 's' | 'Ṣ' => 's' | 'ḥ' => 'h' | 'Ḥ' => 'h'
  | 'ṃ' => 'm' | 'Ṃ' => 'm' | 'ṁ' => 'm' | 'Ṁ' => 'm' | 'ź' => 'z' | 'Ź' => 'z'
  | 'ä' => 'a' | 'Ä' => 'a' | 'ö' => 'o' | 'Ö' => 'o' | 'ü' => 'u' | 'Ü' => 'u'
  | 'ı' => 'i' | 'ş' => 's' | 'Ş' => 's' | 'ņ' => 'n' | 'Ņ' => 'n'
  | 'ã' => 'a' | 'Ã' => 'a'
  | other => other

/-- The post-folding part of canon_key: CANON_MAP translate, lowercase, strip
apostrophes and hyphens. -/
def canonPost (t : List Char) : List Char :=
  ((t.map canonMapChar).map pyLowerChar).filter
    (fun c => !(c = '\'' || c = '’' || c = '-'))

/-- canon_key, line 183: NFC (see the modelling note), confusable folding,
CANON_MAP translate, lowercase, strip apostrophes and hyphens. -/
def canon_key (tok : List Char) : List Char :=
  canonPost (simplifyConfusables tok)

/-- Positional character differences plus length difference, the strict edit
bound of conservative_pair_allowed, line 242. -/
def charDiffs (sa sb : List Char) : Nat :=
  (sa.zip sb).countP (fun p => p.1 ≠ p.2) +
    (max sa.length sb.length - min sa.length sb.length)

/-- conservative_pair_allowed, line 220: only proposals driven by known OCR
confusions — case-only differences for names, or equal confusable-folded
forms, or equal canonical keys within two character edits. -/
def conservative_pair_allowed (src dst : List Char) (category : String) : Bool :=
  if src = dst then false
  else if src.length < 3 ∨ dst.length < 3 then false
  else if category = "names_citations" ∧ src.map pyLowerChar = dst.map pyLowerChar then
    true
  else if simplifyConfusables src = simplifyConfusables dst then true
  else if canon_key src ≠ canon_key dst then false
  else decide (charDiffs (simplifyConfusables src) (simplifyConfusables dst) ≤ 2)

/-- SYMBOL_OR_DIGIT_RE, line 17. -/
def isSymbolOrDigitChar (c : Char) : Bool :=
  isAsciiDigit c || "€£¬¥¢§¤@#%^&*_=/\\|~".toList.contains c

/-- The lowercase IAST diacritic letters counted by token_quality_score. -/
def isLowerDiacriticChar (c : Char) : Bool :=
  "āīūṛṝḷḹṅñṭḍṇśṣḥṃṁź".toList.contains c

/-- The simple transliteration shape of token_quality_score, line 203. -/
def translitShapeOk (tok : List Char) : Bool :=
  tok ≠ [] && tok.all (fun c =>
    isAsciiLetter c || isLowerDiacriticChar c || c = '\'' || c = '’' || c = '-')

def isNameUpperChar (c : Char) : Bool :=
  ('A' ≤ c && c ≤ 'Z') || c = 'Ä' || c = 'Ö' || c = 'Ü'

def isNameLowerChar (c : Char) : Bool :=
  ('a' ≤ c && c ≤ 'z') || c = 'ä' || c = 'ö' || c = 'ü' || c = 'ß'

/-- One segment of the citation-name pattern of token_quality_score, line
208: an uppercase letter followed by at least one lowercase letter. -/
def namePartOk (l : List Char) : Bool :=
  match l with
  | [] => false
  | c :: rest => isNameUpperChar c && rest ≠ [] && rest.all isNameLowerChar

/-- The citation-name pattern with at most one hyphenated second part. -/
def nameTokenOk (tok : List Char) : Bool :=
  match tok.splitOn '-' with
  | [p] => namePartOk p
  | [p, q] => namePartOk p && namePartOk q
  | _ => false

/-- token_quality_score, line 191. -/
def token_quality_score (tok : List Char) (category : String) : ℤ :=
  (if tok.any isSymbolOrDigitChar then -20 else 0) +
  (if tok.contains 'ı' then -12 else 0) +
  (if tok.contains '$' then -15 else 0) +
  (if tok.contains 'ù' ∨ tok.contains '¬' then -12 else 0) +
  (if category = "tibetan_translit" then
    2 * (tok.countP (fun c => isLowerDiacriticChar c) : ℤ) +
    (if translitShapeOk tok then 6 else 0) +
    (if tok.any (fun c => "äöüÄÖÜ".toList.contains c) then -6 else 0)
  else if category = "names_citations" then
    (if nameTokenOk tok then 5 else 0) +
    (if tok.any (fun c => isLowerDiacriticChar c) then 1 else 0)
  else
    (if tok.any (fun c => "äöüÄÖÜß".toList.contains c) then 3 else 0) +
    (if tok.any (fun c => isLowerDiacriticChar c) then -1 else 0))

/-- The descending comparison of the ranked sort of main, line 337:
by count, then by quality score. -/
def rankKeyGt (cat : String) (y x : List Char × Nat) : Bool :=
  y.2 > x.2 ||
    (y.2 = x.2 && token_quality_score y.1 cat > token_quality_score x.1 cat)

/-- Stable descending insertion used to model Python sorted(reverse=True). -/
def rankInsert (cat : String) (x : List Char × Nat) :
    List (List Char × Nat) → List (List Char × Nat)
  | [] => [x]
  | y :: ys => if rankKeyGt cat y x then y :: rankInsert cat x ys else x :: y :: ys

/-- sorted(c.items(), descending by (count, quality), stable). -/
def rankSort (cat : String) : List (List Char × Nat) → List (List Char × Nat)
  | [] => []
  | x :: xs => rankInsert cat x (rankSort cat xs)

/-- One TSV row of conservative_rewrite_candidates.tsv, main lines 318-366. -/
structure RewriteCandRow where
  category : String
  canonKey : List Char
  fromTok : List Char
  toTok : List Char
  fromCount : Nat
  toCount : Nat
  winnerShare : ℚ
  winnerGap : ℚ
  confidence : ℚ

/-- The rows emitted for one token-variant group, main lines 333-366: skip
small or single-form groups, rank the surface forms, require the winner
share and gap floors, and emit one row per admissible loser. -/
def rows_for_group (minTotal : Nat) (minShare minGap : ℚ) (cat : String)
    (key : List Char) (c : List (List Char × Nat)) : List RewriteCandRow :=
  let total := (c.map (fun kv => kv.2)).sum
  if total < minTotal ∨ c.length < 2 then []
  else
    let ranked := rankSort cat c
    let winner := (ranked.headD ([], 0)).1
    let wcnt := (ranked.headD ([], 0)).2
    let second := ((ranked.drop 1).headD ([], 0)).2
    let share : ℚ := (wcnt : ℚ) / total
    let gap : ℚ := ((wcnt : ℚ) - second) / total
    if share < minShare ∨ gap < minGap then []
    else
      (ranked.drop 1).filterMap (fun lc =>
        if lc.1 = winner then none
        else if ¬ (conservative_pair_allowed lc.1 winner cat = true) then none
        else some ⟨cat, key, lc.1, winner, lc.2, wcnt, share, gap,
          min (99/100) (share + gap / 2)⟩)

/-- All conservative rewrite-candidate rows over the variant groups (the
iteration order of the sorted group map does not affect membership). -/
def conservative_rewrite_rows
    (groups : List ((String × List Char) × List (List Char × Nat)))
    (minTotal : Nat) (minShare minGap : ℚ) : List RewriteCandRow :=
  groups.flatMap (fun g => rows_for_group minTotal minShare minGap g.1.1 g.1.2 g.2)

end WtSOCR

namespace WtSOCR

lemma zip_self_fst_eq_snd (l : List Char) : ∀ p ∈ l.zip l, p.1 = p.2 := by
  induction l with
  | nil => intro p hp; simp at hp
  | cons c t ih =>
    intro p hp
    rw [List.zip_cons_cons, List.mem_cons] at hp
    rcases hp with rfl | hp
    · rfl
    · exact ih p hp

lemma charDiffs_self (l : List Char) : charDiffs l l = 0 := by
  simp only [charDiffs]
  rw [Nat.add_eq_zero]
  refine ⟨?_, by omega⟩
  rw [List.countP_eq_zero]
  intro p hp
  simp [zip_self_fst_eq_snd l p hp]

/-- A pair admitted by conservative_pair_allowed shares a canonical key
within two character edits after confusable folding, or differs only in case
for a name-category token. -/
lemma conservative_pair_allowed_implies (src dst : List Char) (category : String)
    (h : conservative_pair_allowed src dst category = true) :
    (canon_key src = canon_key dst ∧
      charDiffs (simplifyConfusables src) (simplifyConfusables dst) ≤ 2) ∨
    (category = "names_citations" ∧ src.map pyLowerChar = dst.map pyLowerChar) := by
  unfold conservative_pair_allowed at h
  split_ifs at h with h1 h2 h3 h4 h5
  all_goals first
    | exact Bool.noConfusion h
    | exact Or.inr h3
    | exact Or.inl ⟨not_ne_iff.mp h5, of_decide_eq_true h⟩
    | (refine Or.inl ⟨?_, ?_⟩
       · unfold canon_key; rw [h4]
       · rw [h4, charDiffs_self]; omega)

/-- C7: every rewrite-candidate row emitted by the conservative rewrite
output of token_variant_report comes from a variant group with total
occurrences at least the configured floor and at least two distinct surface
forms, has winner share and lead margin at least the configured fractions,
and passes conservative_pair_allowed — so its from and to tokens share a
canonical key within two character edits after confusable folding, or differ
only in case for a name-category token. -/
theorem c7_conservative_rewrite_guards
    (groups : List ((String × List Char) × List (List Char × Nat)))
    (minTotal : Nat) (minShare minGap : ℚ) (row : RewriteCandRow)
    (hrow : row ∈ conservative_rewrite_rows groups minTotal minShare minGap) :
    ∃ g ∈ groups,
      row ∈ rows_for_group minTotal minShare minGap g.1.1 g.1.2 g.2 ∧
      minTotal ≤ (g.2.map (fun kv => kv.2)).sum ∧
      2 ≤ g.2.length ∧
      minShare ≤ row.winnerShare ∧
      minGap ≤ row.winnerGap ∧
      conservative_pair_allowed row.fromTok row.toTok row.category = true ∧
      ((canon_key row.fromTok = canon_key row.toTok ∧
        charDiffs (simplifyConfusables row.fromTok)
          (simplifyConfusables row.toTok) ≤ 2) ∨
       (row.category = "names_citations" ∧
        row.fromTok.map pyLowerChar = row.toTok.map pyLowerChar)) := by
  rw [conservative_rewrite_rows, List.mem_flatMap] at hrow
  obtain ⟨g, hg, hmem⟩ := hrow
  refine ⟨g, hg, hmem, ?_⟩
  revert hmem
  simp only [rows_for_group]
  split_ifs with hguard1 hguard2
  · intro hmem; simp at hmem
  · intro hmem; simp at hmem
  · intro hmem
    rw [List.mem_filterMap] at hmem
    obtain ⟨lc, hlc, hsome⟩ := hmem
    split_ifs at hsome with hw hcp
    rw [Option.some.injEq] at hsome
    subst hsome
    push_neg at hguard1 hguard2
    refine ⟨hguard1.1, hguard1.2, hguard2.1, hguard2.2, ?_, ?_⟩
    · simpa using hcp
    · exact conservative_pair_allowed_implies _ _ _ (by simpa using hcp)

end WtSOCR

namespace WtSOCR

/-- Witness for C7 at a concrete variant group (gaṅ seen 8 times, the
confusable variant gan twice): exactly the guarded rewrite row gan → gaṅ is
emitted. -/
theorem c7_conservative_rewrite_guards_witness :
    ∃ row ∈ conservative_rewrite_rows
      [(("tibetan_translit", "gan".toList), [("gaṅ".toList, 8), ("gan".toList, 2)])]
      5 (7/10) (1/5),
    ∃ g ∈ [(("tibetan_translit", "gan".toList), [("gaṅ".toList, 8), ("gan".toList, 2)])],
      row ∈ rows_for_group 5 (7/10) (1/5) g.1.1 g.1.2 g.2 ∧
      5 ≤ (g.2.map (fun kv => kv.2)).sum ∧
      2 ≤ g.2.length ∧
      (7/10 : ℚ) ≤ row.winnerShare ∧
      (1/5 : ℚ) ≤ row.winnerGap ∧
      conservative_pair_allowed row.fromTok row.toTok row.category = true ∧
      ((canon_key row.fromTok = canon_key row.toTok ∧
        charDiffs (simplifyConfusables row.fromTok)
          (simplifyConfusables row.toTok) ≤ 2) ∨
       (row.category = "names_citations" ∧
        row.fromTok.map pyLowerChar = row.toTok.map pyLowerChar)) := by
  have hne : conservative_rewrite_rows
      [(("tibetan_translit", "gan".toList), [("gaṅ".toList, 8), ("gan".toList, 2)])]
      5 (7/10) (1/5) ≠ [] := by
    simp only [conservative_rewrite_rows, List.flatMap_cons, List.flatMap_nil,
      List.append_nil]
    simp only [rows_for_group]
    rw [if_neg (by decide)]
    rw [show rankSort "tibetan_translit" [("gaṅ".toList, 8), ("gan".toList, 2)] =
      [("gaṅ".toList, 8), ("gan".toList, 2)] from by decide]
    simp only [List.headD_cons, List.drop_succ_cons, List.drop_zero]
    rw [show (List.map (fun kv => kv.2)
      [("gaṅ".toList, (8:Nat)), ("gan".toList, 2)]).sum = 10 from by decide]
    rw [if_neg (by push_neg; norm_num)]
    simp only [List.filterMap_cons, List.filterMap_nil]
    rw [if_neg (by decide), if_neg (by decide)]
    simp
  obtain ⟨row, hrow⟩ := List.exists_mem_of_ne_nil _ hne
  exact ⟨row, hrow, c7_conservative_rewrite_guards _ 5 (7/10) (1/5) row hrow⟩

end WtSOCR

namespace WtSOCR

/-! ### Zone Classifier: line_zones, line 185, and its regex scanners.

The marker and year counters are modelled pointwise: a match of these
patterns can never start strictly inside another match (interior characters
are word characters, which fail the leading word-boundary assertion), so the
non-overlapping findall scan counts exactly the positions where the pattern
matches with both boundary assertions. -/

def asciiLower (c : Char) : Char :=
  if 'A' ≤ c ∧ c ≤ 'Z' then Char.ofNat (c.toNat + 32) else c

/-- Case-insensitive literal prefix test (the patterns are ASCII). -/
def ciDropLit : List Char → List Char → Option (List Char)
  | [], s => some s
  | _ :: _, [] => none
  | p :: ps, c :: cs => if asciiLower c = p then ciDropLit ps cs else none

/-- The alternatives of BIBLIO_MARKER_RE, line 142, in alternation order with
the greedy optional dot of ed expanded. -/
def biblioAlts : List (List Char) :=
  ["ed.:", "ed:", "hrsg.", "pp.", "vol.", "nr.", "no.", "ibid.", "cf.",
   "trans.", "tr."].map String.toList

/-- A BIBLIO_MARKER_RE match at the head of s: some alternative matches and
the trailing word boundary holds (every alternative ends in punctuation, so
the next character must be a word character). -/
def biblioMatchAt (s : List Char) : Bool :=
  biblioAlts.any (fun pat =>
    match ciDropLit pat s with
    | some (d :: _) => isWordChar d
    | _ => false)

/-- len(BIBLIO_MARKER_RE.findall(s)), carrying the previous character for the
leading word boundary. -/
def countBiblioMarkers : Option Char → List Char → Nat
  | _, [] => 0
  | prev, c :: rest =>
    let bOk := match prev with | none => true | some p => !isWordChar p
    (if bOk && biblioMatchAt (c :: rest) then 1 else 0) +
      countBiblioMarkers (some c) rest

/-- A YEAR_RE match at the head: 1[89]\d\d or 20\d\d with a trailing
non-word character or end of string. -/
def yearMatchAt (s : List Char) : Bool :=
  match s with
  | d1 :: d2 :: d3 :: d4 :: rest =>
    ((d1 = '1' ∧ (d2 = '8' ∨ d2 = '9')) ∨ (d1 = '2' ∧ d2 = '0')) &&
    isAsciiDigit d3 && isAsciiDigit d4 &&
    (match rest with | [] => true | e :: _ => !isWordChar e)
  | _ => false

/-- len(YEAR_RE.findall(s)). -/
def countYears : Option Char → List Char → Nat
  | _, [] => 0
  | prev, c :: rest =>
    let bOk := match prev with | none => true | some p => !isWordChar p
    (if bOk && yearMatchAt (c :: rest) then 1 else 0) + countYears (some c) rest

/-- is_bibliography_line, line 171. -/
def is_bibliography_line (s : List Char) : Bool :=
  if s = [] then false
  else if ¬ hasLatin s = true then false
  else
    let marker_hits := countBiblioMarkers none s
    let year_hits := countYears none s
    let commaSemis := s.countP (fun c => c = ',') + s.countP (fun c => c = ';')
    (marker_hits ≥ 1 && year_hits ≥ 1) || year_hits ≥ 2 ||
      (marker_hits ≥ 1 && commaSemis ≥ 2)

/-- The lookahead (?=\s|$|[:;,\)\]\}]) of SKT_CONTEXT_RE. -/
def sktLookaheadOk (l : List Char) : Bool :=
  match l with
  | [] => true
  | d :: _ => isPySpace d || ":;,)]".toList.contains d || d = '}'

/-- A SKT_CONTEXT_RE match at the head of s: skt, skr or sanskrit, a greedy
optional dot, and the punctuation lookahead.  Returns the match length. -/
def sktMarkerLenAt (s : List Char) : Option Nat :=
  (["skt", "skr", "sanskrit"].map String.toList).findSome? (fun w =>
    match ciDropLit w s with
    | some rest =>
      match rest with
      | '.' :: rest2 =>
        if sktLookaheadOk rest2 then some (w.length + 1)
        else if sktLookaheadOk rest then some w.length else none
      | _ => if sktLookaheadOk rest then some w.length else none
    | none => none)

/-- End positions of the SKT_CONTEXT_RE matches (finditer order). -/
def sktMarkerEnds : Option Char → Nat → List Char → List Nat
  | _, _, [] => []
  | prev, i, c :: rest =>
    let bOk := match prev with | none => true | some p => !isWordChar p
    match (if bOk then sktMarkerLenAt (c :: rest) else none) with
    | some n => (i + n) :: sktMarkerEnds (some c) (i + 1) rest
    | none => sktMarkerEnds (some c) (i + 1) rest

def sktContextSearch (s : List Char) : Bool := sktMarkerEnds none 0 s ≠ []

/-- The character class of EQUALS_TRANSLIT_HINT_RE, line 49. -/
def isEqHintChar (c : Char) : Bool :=
  isAsciiLetter c || "'’äÄāīūṛṝḷḹṅñṭḍṇśṣḥṃṁź".toList.contains c

/-- EQUALS_TRANSLIT_HINT_RE.search: an equals sign followed by optional
whitespace and at least two transliteration-hint characters. -/
def equalsTranslitHint : List Char → Bool
  | [] => false
  | c :: rest =>
    (c = '=' &&
      (match rest.dropWhile isPySpace with
       | a :: b :: _ => isEqHintChar a && isEqHintChar b
       | _ => false)) ||
    equalsTranslitHint rest

/-- The letter class of WORD_RE, line 135. -/
def isWordReLetter (c : Char) : Bool :=
  isAsciiLetter c || "āīūṛṝḷḹṅñṭḍṇśṣḥṃṁźäÄöÖüÜışŞņŅãÃ".toList.contains c

/-- Take one WORD_RE token (letters with interior single hyphens) from a
string known to start with a letter; returns (token, rest).  Fueled by the
string length. -/
def wordTokenTakeF : Nat → List Char → List Char × List Char
  | 0, s => ([], s)
  | fuel + 1, s =>
    let run := s.takeWhile isWordReLetter
    let rest := s.dropWhile isWordReLetter
    match rest with
    | '-' :: d :: _ =>
      if isWordReLetter d then
        let pr := wordTokenTakeF fuel (rest.drop 1)
        (run ++ '-' :: pr.1, pr.2)
      else (run, rest)
    | _ => (run, rest)

/-- All WORD_RE tokens of a line, in order. -/
def wordTokensF : Nat → List Char → List (List Char)
  | 0, _ => []
  | _ + 1, [] => []
  | fuel + 1, c :: rest =>
    if isWordReLetter c then
      let pr := wordTokenTakeF (c :: rest).length (c :: rest)
      pr.1 :: wordTokensF fuel pr.2
    else wordTokensF fuel rest

def wordTokens (s : List Char) : List (List Char) := wordTokensF (s.length + 1) s

/-- Rebuild a line applying f to every WORD_RE token, keeping everything
else. -/
def mapWordTokensF : Nat → (List Char → List Char) → List Char → List Char
  | 0, _, s => s
  | _ + 1, _, [] => []
  | fuel + 1, f, c :: rest =>
    if isWordReLetter c then
      let pr := wordTokenTakeF (c :: rest).length (c :: rest)
      f pr.1 ++ mapWordTokensF fuel f pr.2
    else c :: mapWordTokensF fuel f rest

def mapWordTokens (f : List Char → List Char) (s : List Char) : List Char :=
  mapWordTokensF (s.length + 1) f s

/-- TOKEN_ANY_LATIN_RE, line 47, as a full-token test. -/
def isTokenAnyLatinChar (c : Char) : Bool :=
  isAsciiLetter c || "'’āīūṛṝḷḹṅñṭḍṇśṣḥṃṁźäÄöÖüÜışŞņŅãÃ-".toList.contains c

def tokenAnyLatinFull (t : List Char) : Bool :=
  t ≠ [] && t.all isTokenAnyLatinChar

/-- TOKEN_TRANSLIT_RE, line 45, as a full-token test (no ö, no hyphen). -/
def isTokenTranslitChar (c : Char) : Bool :=
  isAsciiLetter c || "'’āīūṛṝḷḹṅñṭḍṇśṣḥṃṁźäÄüÜşŞņŅãÃ".toList.contains c

def tokenTranslitFull (t : List Char) : Bool :=
  t ≠ [] && t.all isTokenTranslitChar

/-- Substring test. -/
def containsSub (pat : List Char) : List Char → Bool
  | [] => pat.isEmpty
  | c :: rest => pat.isPrefixOf (c :: rest) || containsSub pat rest

/-- token_to_ascii_base, line 474. -/
def token_to_ascii_base (token : List Char) : List Char :=
  ((((normalize_text token).map diacriticBase).map pyLowerChar).map
    (fun c => if c = 'ä' then 'a' else if c = 'ö' then 'o'
      else if c = 'ü' then 'u' else c)).filter (fun c => !(c = '-'))

/-- SANSKRIT_HINT_SUBSTRINGS, line 118. -/
def sanskritHints : List (List Char) :=
  ["sutra", "tantra", "karika", "vinaya", "abhidharma", "abhidhana",
   "nidana", "bhumika", "megha", "duta", "dharma", "prajna", "vajra",
   "yoga", "mantra"].map String.toList

/-- token_looks_sanskritic, line 481. -/
def token_looks_sanskritic (token : List Char) : Bool :=
  if token = [] then false
  else if ¬ tokenAnyLatinFull token = true then false
  else if token.any (fun c => isDiacriticChar c) then true
  else if token.any (fun c => "şŞņŅãÃ".toList.contains c) then true
  else
    let base := token_to_ascii_base token
    if base = [] then false
    else if sanskritHints.any (fun h => containsSub h base) then true
    else if (["bh", "dh", "gh", "kh", "ph", "th", "sh", "tsh", "dz", "rdz"].map
        String.toList).any (fun h => containsSub h base) then true
    else false

/-- line_zones, line 185: the zone label set of a single line, as the list of
labels in insertion order. -/
def line_zones (s : List Char) : List String :=
  if s = [] then []
  else
    let hasT := hasTib s
    let hasL := hasLatin s
    let zTib : List String := if hasT then ["tibetan"] else []
    let zBib : List String := if is_bibliography_line s then ["bibliography"] else []
    let zRom : List String :=
      if hasT ∧ translit_tail_after_tibetan s ≠ [] then ["romanization"] else []
    let zSkt : List String :=
      if sktContextSearch s ∨ equalsTranslitHint s then ["sanskrit"]
      else if hasL ∧ ¬ is_bibliography_line s = true then
        (if (wordTokens s).any token_looks_sanskritic then ["sanskrit"] else [])
      else []
    let zGer : List String :=
      if hasL ∧ zRom = [] ∧ zSkt = [] then ["german_prose"] else []
    zTib ++ zBib ++ zRom ++ zSkt ++ zGer

end WtSOCR

namespace WtSOCR

/-! ### Token Normalizer: post_cleanup_translit_line, line 803, and helpers. -/

/-- PA_APOSTROPHE_RE.search as a Boolean. -/
def paApostropheSearch : Option Char → List Char → Bool
  | _, [] => false
  | prev, 'p' :: 'a' :: q :: rest2 =>
    ((match prev with | none => true | some p => !isTranslitLetterLower p) &&
      (q == '\'' || q == '’') &&
      (match rest2 with | [] => true | d :: _ => !isTranslitLetterLower d)) ||
    paApostropheSearch (some 'p') ('a' :: q :: rest2)
  | _, c :: rest => paApostropheSearch (some c) rest

/-- POST_FIX_WORDS, line 111. -/
def postFixWords : List (List Char × List Char) :=
  [("Ita", "lta"), ("Itar", "ltar"), ("Iha", "lha"), ("Idan", "ldan"),
   ("gyl", "gyi")].map (fun p => (p.1.toList, p.2.toList))

/-- re.search of a literal word wrapped in word boundaries. -/
def wordBoundarySearch (bad : List Char) : Option Char → List Char → Bool
  | _, [] => false
  | prev, c :: rest =>
    ((match prev with | none => true | some p => !isWordChar p) &&
      bad.isPrefixOf (c :: rest) &&
      (match (c :: rest).drop bad.length with
       | [] => true
       | d :: _ => !isWordChar d)) ||
    wordBoundarySearch bad (some c) rest

/-- re.sub of a literal word wrapped in word boundaries; the boundary before a
later match is judged on the original characters, so the carried previous
character after a replacement is the last character of the matched text. -/
def wordReplaceF : Nat → List Char → List Char → Option Char → List Char → List Char
  | 0, _, _, _, s => s
  | _ + 1, _, _, _, [] => []
  | fuel + 1, bad, good, prev, c :: rest =>
    if ((match prev with | none => true | some p => !isWordChar p) &&
        bad.isPrefixOf (c :: rest) &&
        (match (c :: rest).drop bad.length with
         | [] => true
         | d :: _ => !isWordChar d)) = true then
      good ++ wordReplaceF fuel bad good (some (bad.getLastD ' ')) ((c :: rest).drop bad.length)
    else c :: wordReplaceF fuel bad good (some c) rest

/-- The POST_FIX_WORDS substitution loop, lines 820-821. -/
def applyPostFixWords (s : List Char) : List Char :=
  postFixWords.foldl (fun acc bw => wordReplaceF (acc.length + 1) bw.1 bw.2 none acc) s

/-- has_explicit_confusable, line 807. -/
def has_explicit_confusable (out : List Char) : Bool :=
  out.contains '$' || paApostropheSearch none out ||
    postFixWords.any (fun bw => wordBoundarySearch bw.1 none out)

/-- N_TILDE_GRAVE_PAIR_RE.sub("ṅ", s): the case-insensitive ñù digraph. -/
def subNTildeGravePair : List Char → List Char
  | [] => []
  | [c] => [c]
  | a :: b :: rest =>
    if (a == 'ñ' || a == 'Ñ') && (b == 'ù' || b == 'Ù') then
      'ṅ' :: subNTildeGravePair rest
    else a :: subNTildeGravePair (b :: rest)

/-- The syllable-final punctuation class shared by the nasal regexes. -/
def isNasalPunct (c : Char) : Bool :=
  ",.;:!?)]".toList.contains c || c = '}' || "\"“”„'’/-་།".toList.contains c

/-- Lookahead (?:\s|$|[punct]). -/
def nasalFinalOk (l : List Char) : Bool :=
  match l with
  | [] => true
  | d :: _ => isPySpace d || isNasalPunct d

/-- Lookahead [sS](?:\s|$|[punct]). -/
def sFinalOk (l : List Char) : Bool :=
  match l with
  | s1 :: rest => (s1 == 's' || s1 == 'S') && nasalFinalOk rest
  | [] => false

/-- N_TILDE_BEFORE_IE_RE.sub(protected, s): palatal ñ before i/e vowels is
protected with the private-use sentinel. -/
def subNTildeBeforeIE : List Char → List Char
  | [] => []
  | 'ñ' :: rest =>
    (if (match rest with
         | d :: _ => d == 'i' || d == 'I' || d == 'e' || d == 'E' || d == 'ī' || d == 'Ī'
         | [] => false) then '' else 'ñ') :: subNTildeBeforeIE rest
  | c :: rest => c :: subNTildeBeforeIE rest

/-- N_TILDE_ACUTE_N_BEFORE_S_FINAL_RE.sub("ṅ", s). -/
def subNTildeAcutePairSFinal : List Char → List Char
  | [] => []
  | [c] => [c]
  | 'ñ' :: 'ń' :: rest =>
    if sFinalOk rest then 'ṅ' :: subNTildeAcutePairSFinal rest
    else 'ñ' :: subNTildeAcutePairSFinal ('ń' :: rest)
  | c :: rest => c :: subNTildeAcutePairSFinal rest

/-- N_TILDE_BEFORE_S_FINAL_RE.sub("ṅ", s). -/
def subNTildeSFinal : List Char → List Char
  | [] => []
  | 'ñ' :: rest => (if sFinalOk rest then 'ṅ' else 'ñ') :: subNTildeSFinal rest
  | c :: rest => c :: subNTildeSFinal rest

/-- N_TILDE_SYL_FINAL_RE.sub("ṅ", s). -/
def subNTildeSylFinal : List Char → List Char
  | [] => []
  | 'ñ' :: rest => (if nasalFinalOk rest then 'ṅ' else 'ñ') :: subNTildeSylFinal rest
  | c :: rest => c :: subNTildeSylFinal rest

/-- N_ACUTE_N_BEFORE_S_FINAL_RE.sub("ṅ", s). -/
def subNAcuteSFinal : List Char → List Char
  | [] => []
  | 'ń' :: rest => (if sFinalOk rest then 'ṅ' else 'ń') :: subNAcuteSFinal rest
  | c :: rest => c :: subNAcuteSFinal rest

/-- N_ACUTE_N_SYL_FINAL_RE.sub("ṅ", s). -/
def subNAcuteSylFinal : List Char → List Char
  | [] => []
  | 'ń' :: rest => (if nasalFinalOk rest then 'ṅ' else 'ń') :: subNAcuteSylFinal rest
  | c :: rest => c :: subNAcuteSylFinal rest

/-- The nasal-normalization chain of lines 827-834, including the protected
palatal restore. -/
def nasalNormalize (s : List Char) : List Char :=
  (subNAcuteSylFinal (subNAcuteSFinal (subNTildeSylFinal (subNTildeSFinal
      (subNTildeAcutePairSFinal (subNTildeBeforeIE s)))))).map
    (fun c => if c = '' then 'ñ' else c)

/-- SANSKRIT_CEDILLA_CHAR_MAP, line 457. -/
def cedillaFix (c : Char) : Char :=
  if c = 'ş' then 'ṣ' else if c = 'Ş' then 'Ṣ' else if c = 'ņ' then 'ṇ'
  else if c = 'Ņ' then 'Ṇ' else if c = 'ã' then 'ā' else if c = 'Ã' then 'Ā'
  else c

/-- normalize_sanskrit_token_chars, line 468. -/
def normalize_sanskrit_token_chars (token : List Char) (skt : Bool) : List Char :=
  if skt then token.map cedillaFix else token

/-- normalize_translit_token_dieresis, line 441. -/
def normalize_translit_token_dieresis (token : List Char) (skt : Bool) : List Char :=
  if skt = false then token
  else if tokenAnyLatinFull token = false then token
  else if (token.contains 'ä' || token.contains 'Ä' ||
           token.contains 'ü' || token.contains 'Ü') = false then token
  else token.map (fun c =>
    if c = 'ä' then 'ā' else if c = 'Ä' then 'Ā'
    else if c = 'ü' then 'ū' else if c = 'Ü' then 'Ū' else c)

/-- The end_marks set of normalize_dieresis_in_skt_spans, line 613. -/
def isSktEndMark (c : Char) : Bool :=
  ";:,.!?)]".toList.contains c || c = '}' || "»“”\"".toList.contains c

/-- The per-character repair inside a Sanskrit span, lines 623-632. -/
def sktSpanCharFix (c : Char) : Char :=
  if c = 'ä' then 'ā' else if c = 'Ä' then 'Ā' else if c = 'ü' then 'ū'
  else if c = 'Ü' then 'Ū' else cedillaFix c

/-- Convert characters until the first end mark, leaving the rest alone. -/
def sktConvertSeg : List Char → List Char
  | [] => []
  | c :: rest => if isSktEndMark c then c :: rest else sktSpanCharFix c :: sktConvertSeg rest

/-- One span application from a marker end position (conversion is
length-preserving, so the original positions remain valid). -/
def sktApplyAt (s : List Char) (e : Nat) : List Char :=
  let suff := s.drop e
  s.take e ++ (suff.takeWhile isPySpace ++ sktConvertSeg (suff.dropWhile isPySpace))

/-- normalize_dieresis_in_skt_spans, line 607. -/
def normalize_dieresis_in_skt_spans (s : List Char) : List Char :=
  let marks := sktMarkerEnds none 0 s
  if marks = [] then s else marks.foldl sktApplyAt s

/-- re.search of \bLex\. (case sensitive), line 642. -/
def lexDotSearch : Option Char → List Char → Bool
  | _, [] => false
  | prev, c :: rest =>
    ((match prev with | none => true | some p => !isWordChar p) &&
      "Lex.".toList.isPrefixOf (c :: rest)) ||
    lexDotSearch (some c) rest

/-- The token-stop characters of the scan loop at line 657. -/
def isEqStopChar (c : Char) : Bool :=
  ",;:.)]".toList.contains c || c = '}' || c = '"' || c = '“' || c = '”'

/-- The scan loop of normalize_dieresis_after_equals_translit, lines 647-664:
at each equals sign, skip whitespace, take the following token up to the next
space or stop character, and splice in the converted token when the
conversion changed it and it is a pure transliteration token. -/
def eqTranslitScanF : Nat → List Char → List Char
  | 0, s => s
  | _ + 1, [] => []
  | fuel + 1, '=' :: rest =>
    let sp := rest.takeWhile isPySpace
    let r2 := rest.dropWhile isPySpace
    if r2 = [] then '=' :: rest
    else
      let tok := r2.takeWhile (fun c => !(isPySpace c || isEqStopChar c))
      let r3 := r2.dropWhile (fun c => !(isPySpace c || isEqStopChar c))
      let conv := normalize_sanskrit_token_chars
        (normalize_translit_token_dieresis tok (!tok.isEmpty)) (!tok.isEmpty)
      let out := if conv ≠ tok ∧ tokenTranslitFull tok = true then conv else tok
      '=' :: (sp ++ (out ++ eqTranslitScanF fuel r3))
  | fuel + 1, c :: rest => c :: eqTranslitScanF fuel rest

/-- normalize_dieresis_after_equals_translit, line 637. -/
def normalize_dieresis_after_equals_translit (s : List Char) : List Char :=
  if s.contains '=' = false then s
  else if (hasTib s || sktContextSearch s || lexDotSearch none s) = false then s
  else eqTranslitScanF (2 * s.length + 2) s

/-- The per-segment conversion of normalize_sanskrit_umlauts_in_text. -/
def umlautFixSeg (seg : List Char) : List Char :=
  let k := token_looks_sanskritic seg
  normalize_sanskrit_token_chars (normalize_translit_token_dieresis seg k) k

/-- The per-token conversion, with hyphenated tokens handled
segment-by-segment (re.split on the hyphen keeps separators and empties,
which the conversion passes through unchanged). -/
def umlautFixToken (token : List Char) : List Char :=
  if token.contains '-' = false then umlautFixSeg token
  else List.intercalate ['-'] ((token.splitOn '-').map umlautFixSeg)

/-- normalize_sanskrit_umlauts_in_text, line 500. -/
def normalize_sanskrit_umlauts_in_text (s : List Char) : List Char :=
  mapWordTokens umlautFixToken s

/-- TRANSLIT_CLUSTER_RE.search (case-insensitive clusters and apostrophes). -/
def translitClusterSearch (token : List Char) : Bool :=
  let lt := token.map asciiLower
  (["kh", "tsh", "ts", "ch", "ph", "th", "dh", "bh", "rdz", "dz"].map
    String.toList).any (fun w => containsSub w lt) ||
  token.contains '\'' || token.contains '’'

/-- token_has_translit_cues, line 528. -/
def token_has_translit_cues (token : List Char) : Bool :=
  if token = [] then false
  else if token.any (fun c => isDiacriticChar c) then true
  else translitClusterSearch token

/-- re.split(r"(\s+)", s) with empty parts removed: the alternating run
decomposition into whitespace runs and non-whitespace runs. -/
def splitSpaceRunsF : Nat → List Char → List (List Char)
  | 0, _ => []
  | _ + 1, [] => []
  | fuel + 1, s@(c :: _) =>
    if isPySpace c then
      s.takeWhile isPySpace :: splitSpaceRunsF fuel (s.dropWhile isPySpace)
    else
      s.takeWhile (fun x => !isPySpace x) ::
        splitSpaceRunsF fuel (s.dropWhile (fun x => !isPySpace x))

/-- The keep-while-transliteration loop of translit_lead_tokens. -/
def leadTokensAux : List (List Char) → List (List Char)
  | [] => []
  | part :: rest =>
    if part.all isPySpace then part :: leadTokensAux rest
    else if tokenTranslitFull part then part :: leadTokensAux rest
    else []

/-- translit_lead_tokens, line 538. -/
def translit_lead_tokens (tail : List Char) : List (List Char) :=
  leadTokensAux (splitSpaceRunsF (tail.length + 1) tail)

/-- TRANSLIT_CHAR_RE character class, line 147. -/
def isTranslitCharClass (c : Char) : Bool :=
  isAsciiLetter c || "āīūṛṝḷḹṅñṭḍṇśṣḥṃṁźäÄöÖüÜışŞņŅãÃ".toList.contains c

/-- REPEATED_DIGIT_RE.search: three equal consecutive digits. -/
def repeatedDigitSearch : List Char → Bool
  | a :: b :: c :: rest =>
    (isAsciiDigit a && a == b && b == c) || repeatedDigitSearch (b :: c :: rest)
  | _ => false

/-- The benign character class whose complement ROMAN_NOISE_DIGSYM_RE
requires (note: no uppercase diacritics). -/
def isDigSymBenignChar (c : Char) : Bool :=
  isAsciiLetter c || isAsciiDigit c ||
  "āīūṛṝḷḹṅñṭḍṇśṣḥṃṁźäÄöÖüÜı".toList.contains c

/-- is_roman_noise_token, line 555.  Python compares the float ratio
(char_count - letter_count) / char_count against the literal 0.40; for the
small counts involved the comparison agrees exactly with the rational
inequality 5*(cc - lc) > 2*cc, which is how it is stated here. -/
def is_roman_noise_token (tok : List Char) : Bool :=
  if tok = [] then false
  else if tokenTranslitFull tok then false
  else
    let cc := tok.length
    let lc := tok.countP (fun c => isTranslitCharClass c)
    if 3 ≤ cc ∧ 2 * cc < 5 * (cc - lc) then true
    else if 2 ≤ cc ∧ tok.all (fun c => isAsciiDigit c || ":/%.,;+-".toList.contains c) then true
    else if repeatedDigitSearch tok then true
    else if tok.any (fun c => isAsciiDigit c) &&
            tok.any (fun c => !isDigSymBenignChar c) &&
            tok.all (fun c => !isPySpace c) then true
    else if tok.any (fun c => "£¥¢§¤".toList.contains c) && !hasLatin tok then true
    else false

/-- The filtering loop of drop_roman_tail_noise_after_tibetan over the run
decomposition of the tail: space runs and transliteration tokens are kept,
noise tokens dropped, and the first other token stops the scan with the
remainder kept verbatim. -/
def dropNoisePartsAux : List (List Char) → List (List Char)
  | [] => []
  | part :: rest =>
    if part.all isPySpace then part :: dropNoisePartsAux rest
    else if tokenTranslitFull part then part :: dropNoisePartsAux rest
    else if is_roman_noise_token part then dropNoisePartsAux rest
    else part :: rest

/-- drop_roman_tail_noise_after_tibetan, line 577. -/
def drop_roman_tail_noise_after_tibetan (line : List Char) : List Char :=
  let pr := split_tibetan_prefix_tail line
  if pr.1 = [] ∨ pr.2 = [] then line
  else
    let parts := dropNoisePartsAux (splitSpaceRunsF (pr.2.length + 1) pr.2)
    let out_tail := if parts = [] then pr.2 else pyStrip parts.flatten
    let joiner : List Char := if pr.1.getLast? = some ' ' ∨ out_tail = [] then [] else [' ']
    pyRstrip (pr.1 ++ (joiner ++ out_tail))

/-- TIB_SYLLABLE_SPLIT_RE.split with empties removed: maximal runs of
non-separator characters. -/
def splitNonStripAuxF : Nat → List Char → List (List Char)
  | 0, _ => []
  | _ + 1, [] => []
  | fuel + 1, s@(c :: _) =>
    if isTibStripChar c then splitNonStripAuxF fuel (s.dropWhile isTibStripChar)
    else
      s.takeWhile (fun x => !isTibStripChar x) ::
        splitNonStripAuxF fuel (s.dropWhile (fun x => !isTibStripChar x))

/-- tibetan_syllables, line 668. -/
def tibetan_syllables (pfx : List Char) : List (List Char) :=
  splitNonStripAuxF (pfx.length + 1) pfx

/-- re.sub(r"n(?=s?$)", "ṅ", tok). -/
def ngSubN : List Char → List Char
  | [] => []
  | 'n' :: rest => (if rest = [] ∨ rest = ['s'] then 'ṅ' else 'n') :: ngSubN rest
  | c :: rest => c :: ngSubN rest

/-- re.sub(r"ng(?=s?$)", "ṅ", tok). -/
def ngSubNG : List Char → List Char
  | [] => []
  | 'n' :: 'g' :: rest =>
    if rest = [] ∨ rest = ['s'] then 'ṅ' :: rest
    else 'n' :: ngSubNG ('g' :: rest)
  | c :: rest => c :: ngSubNG rest

/-- The token loop of enforce_ng_from_tibetan_prefix, lines 689-699: walk the
run decomposition of the lead text, counting non-space tokens, and apply the
dotted-n substitutions to tokens whose aligned Tibetan syllable contains
NGA. -/
def ngFixPartsAux (syls : List (List Char)) : Nat → List (List Char) → List Char
  | _, [] => []
  | idx, part :: rest =>
    if part.all isPySpace then part ++ ngFixPartsAux syls idx rest
    else
      (if idx < syls.length ∧ (syls.getD idx []).contains 'ང' then
        ngSubNG (ngSubN part)
      else part) ++ ngFixPartsAux syls (idx + 1) rest

/-- enforce_ng_from_tibetan_prefix, line 672. -/
def enforce_ng_from_tibetan_headword (line : List Char) : List Char :=
  let pr := split_tibetan_prefix_tail line
  if pr.1 = [] ∨ pr.2 = [] then line
  else
    let syls := tibetan_syllables pr.1
    if syls = [] then line
    else
      let lead := translit_lead_tokens pr.2
      let lead_consumed := (lead.map List.length).sum
      if lead_consumed = 0 then line
      else
        let lead_text := pr.2.take lead_consumed
        let fixed_lead := ngFixPartsAux syls 0 (splitSpaceRunsF (lead_text.length + 1) lead_text)
        line.take (line.length - pr.2.length) ++ (fixed_lead ++ pr.2.drop lead_consumed)

/-- The macron-lead piece loop of post_cleanup_translit_line, lines 847-855:
non-space runs get the unconditional dieresis and cedilla conversion. -/
def macronFixParts : List (List Char) → List Char
  | [] => []
  | part :: rest =>
    (if part.all isPySpace then part
     else normalize_sanskrit_token_chars (normalize_translit_token_dieresis part true) true) ++
    macronFixParts rest

/-- post_cleanup_translit_line, line 803. -/
def post_cleanup_translit_line (s : List Char) : List Char :=
  let out0 := normalize_text s
  let zones := line_zones out0
  let conf := has_explicit_confusable out0
  if (zones.contains "romanization" || zones.contains "sanskrit" || conf) = false then out0
  else
    let out1 := out0.filter (fun c => !(c = '€' || c = '£' || c = '¬'))
    let out2 :=
      if zones.contains "romanization" || conf then
        nasalNormalize (applyPostFixWords (subNTildeGravePair (subPaApostrophe none
          (out1.map (fun c => if c = '$' then 'ś' else c)))))
      else out1
    let out3 :=
      if zones.contains "sanskrit" then
        normalize_sanskrit_umlauts_in_text (normalize_dieresis_after_equals_translit
          (normalize_dieresis_in_skt_spans out2))
      else out2
    let out4 :=
      if zones.contains "romanization" && hasTib out3 then
        let sanskrit_context := zones.contains "sanskrit" || out3.any (fun c => isLowerDiacriticChar c)
        let tail := translit_tail_after_tibetan out3
        let out3b :=
          if tail ≠ [] then
            let lead := translit_lead_tokens tail
            let has_lead_cues := lead.any (fun p =>
              !(p.all isPySpace) && token_has_translit_cues p)
            if sanskrit_context || has_lead_cues then
              let lead_consumed := (lead.map List.length).sum
              out3.take (out3.length - tail.length) ++
                (macronFixParts (splitSpaceRunsF (lead_consumed + 1) (tail.take lead_consumed)) ++
                  tail.drop lead_consumed)
            else out3
          else out3
        enforce_ng_from_tibetan_headword (drop_roman_tail_noise_after_tibetan out3b)
      else out3
    normalize_text out4

end WtSOCR

namespace WtSOCR

/-- Bibliography classification requires a Latin letter. -/
lemma is_bibliography_line_latin (s : List Char) (h : hasLatin s = false) :
    is_bibliography_line s = false := by
  unfold is_bibliography_line
  split_ifs with h1 h2
  · rfl
  · rw [h] at h2; exact absurd h2 (by decide)
  · rfl

/-- C5 (amended): a line with no Latin letter is never classified as
bibliography or German prose.  The original claim, that such a line carries
no zone other than tibetan, is refuted by c5_counterexample: the
romanization and sanskrit zones do not require Latin letters. -/
theorem c5_no_latin_zone_guard (s : List Char) (h : hasLatin s = false) :
    (line_zones s).contains "bibliography" = false ∧
    (line_zones s).contains "german_prose" = false := by
  unfold line_zones
  by_cases hs : s = []
  · simp [hs]
  · rw [if_neg hs]
    have hb := is_bibliography_line_latin s h
    simp only [h, hb, Bool.false_eq_true, if_false, false_and]
    split_ifs <;> decide

/-- C5 counterexample: a line of a Tibetan letter, a digit and an equals sign
followed by two typographic apostrophes has no Latin letter, yet is
classified with the romanization and sanskrit zones as well as tibetan. -/
theorem c5_counterexample :
    hasLatin "ཀ1=’’".toList = false ∧
    line_zones "ཀ1=’’".toList = ["tibetan", "romanization", "sanskrit"] :=
  ⟨by decide, by decide⟩

theorem c5_no_latin_zone_guard_witness :
    hasLatin "ཀ་ཁ".toList = false ∧
    ((line_zones "ཀ་ཁ".toList).contains "bibliography" = false ∧
     (line_zones "ཀ་ཁ".toList).contains "german_prose" = false) :=
  ⟨by decide, c5_no_latin_zone_guard _ (by decide)⟩

end WtSOCR

namespace WtSOCR

/-- When a line has neither the romanization nor the sanskrit zone and no
explicit confusable signature, the Token Normalizer stops at the gate and
returns the whitespace/quote-normalized line. -/
lemma post_cleanup_gate_skip (s : List Char)
    (h1 : (line_zones (normalize_text s)).contains "romanization" = false)
    (h2 : (line_zones (normalize_text s)).contains "sanskrit" = false)
    (h3 : has_explicit_confusable (normalize_text s) = false) :
    post_cleanup_translit_line s = normalize_text s := by
  unfold post_cleanup_translit_line
  simp only [h1, h2, h3, Bool.or_false, Bool.false_or]
  rfl

/-- C8 (amended): on a line with neither the romanization nor the sanskrit
zone and no explicit confusable signature anywhere in the line, the Token
Normalizer performs no token rewriting at all: its output is exactly the
whitespace/quote-normalized line.  The original per-token claim is refuted
by c8_counterexample: one confusable signature anywhere in the line (here a
dollar sign) opens the rewrite path for the whole line, and a clean token of
a bibliography/german_prose line is rewritten. -/
theorem c8_zone_gate (s : List Char)
    (h1 : (line_zones (normalize_text s)).contains "romanization" = false)
    (h2 : (line_zones (normalize_text s)).contains "sanskrit" = false)
    (h3 : has_explicit_confusable (normalize_text s) = false) :
    post_cleanup_translit_line s = normalize_text s :=
  post_cleanup_gate_skip s h1 h2 h3

/-- C8 counterexample: the line is classified bibliography and german_prose
only; the token sañ carries no confusable signature of its own, yet the
normalizer (enabled by the unrelated dollar sign) rewrites it to saṅ. -/
theorem c8_counterexample :
    line_zones "ibid. 1898, 1899, sañ $".toList = ["bibliography", "german_prose"] ∧
    "sañ".toList ∈ wordTokens "ibid. 1898, 1899, sañ $".toList ∧
    has_explicit_confusable "sañ".toList = false ∧
    post_cleanup_translit_line "ibid. 1898, 1899, sañ $".toList =
      "ibid. 1898, 1899, saṅ ś".toList ∧
    "sañ".toList ∉ wordTokens (post_cleanup_translit_line "ibid. 1898, 1899, sañ $".toList) :=
  ⟨by decide, by decide, by decide, by decide, by decide⟩

theorem c8_zone_gate_witness :
    (line_zones (normalize_text "und das Haus".toList)).contains "romanization" = false ∧
    (line_zones (normalize_text "und das Haus".toList)).contains "sanskrit" = false ∧
    has_explicit_confusable (normalize_text "und das Haus".toList) = false ∧
    post_cleanup_translit_line "und das Haus".toList = normalize_text "und das Haus".toList :=
  ⟨by decide, by decide, by decide,
    c8_zone_gate "und das Haus".toList (by decide) (by decide) (by decide)⟩

end WtSOCR

namespace WtSOCR

lemma pyCharNorm_idem (c : Char) : pyCharNorm (pyCharNorm c) = pyCharNorm c := by
  by_cases h1 : c = '“' ∨ c = '”' ∨ c = '„' ∨ c = '«' ∨ c = '»'
  · rw [show pyCharNorm c = '"' from by unfold pyCharNorm; rw [if_pos h1]]; decide
  · by_cases h2 : c = '’' ∨ c = '‘' ∨ c = '‚' ∨ c = '‛'
    · rw [show pyCharNorm c = '\'' from by unfold pyCharNorm; rw [if_neg h1, if_pos h2]]; decide
    · by_cases h3 : c = 'ı'
      · rw [show pyCharNorm c = 'i' from by unfold pyCharNorm; rw [if_neg h1, if_neg h2, if_pos h3]]; decide
      · by_cases h4 : c = '\x0c'
        · rw [show pyCharNorm c = ' ' from by unfold pyCharNorm; rw [if_neg h1, if_neg h2, if_neg h3, if_pos h4]]; decide
        · by_cases h5 : c = '\n'
          · rw [show pyCharNorm c = ' ' from by unfold pyCharNorm; rw [if_neg h1, if_neg h2, if_neg h3, if_neg h4, if_pos h5]]; decide
          · have he : pyCharNorm c = c := by
              unfold pyCharNorm; rw [if_neg h1, if_neg h2, if_neg h3, if_neg h4, if_neg h5]
            rw [he, he]

lemma mem_subRunsAux (p : Char → Bool) (l : List Char) (c : Char) :
    ∀ b, c ∈ subRunsAux p b l → c = ' ' ∨ c ∈ l := by
  induction l with
  | nil => intro b h; simp [subRunsAux] at h
  | cons d rest ih =>
    intro b h
    by_cases hp : p d = true
    · cases b with
      | true =>
        rw [show subRunsAux p true (d :: rest) = subRunsAux p true rest from by
          simp [subRunsAux, hp]] at h
        rcases ih true h with h | h
        · exact Or.inl h
        · exact Or.inr (List.mem_cons_of_mem _ h)
      | false =>
        rw [show subRunsAux p false (d :: rest) = ' ' :: subRunsAux p true rest from by
          simp [subRunsAux, hp]] at h
        rcases List.mem_cons.mp h with h | h
        · exact Or.inl h
        · rcases ih true h with h | h
          · exact Or.inl h
          · exact Or.inr (List.mem_cons_of_mem _ h)
    · rw [show subRunsAux p b (d :: rest) = d :: subRunsAux p false rest from by
          simp [subRunsAux, hp]] at h
      rcases List.mem_cons.mp h with h | h
      · exact Or.inr (h ▸ List.mem_cons_self _ _)
      · rcases ih false h with h | h
        · exact Or.inl h
        · exact Or.inr (List.mem_cons_of_mem _ h)

/-- Adjacent characters are not both whitespace. -/
def spacedApart (c d : Char) : Prop := isPySpace c = false ∨ isPySpace d = false

/-- The head, if any, is not whitespace. -/
def headNS : List Char → Prop
  | [] => True
  | c :: _ => isPySpace c = false

lemma subRunsAux_shape (l : List Char) : ∀ b : Bool,
    (List.Chain' spacedApart (subRunsAux isPySpace b l) ∧
      ∀ c ∈ subRunsAux isPySpace b l, isPySpace c = true → c = ' ') ∧
    headNS (subRunsAux isPySpace true l) := by
  induction l with
  | nil =>
    intro b
    exact ⟨⟨List.chain'_nil, by intro c hc; simp [subRunsAux] at hc⟩, trivial⟩
  | cons d rest ih =>
    intro b
    by_cases hp : isPySpace d = true
    · have et : subRunsAux isPySpace true (d :: rest) = subRunsAux isPySpace true rest := by
        simp [subRunsAux, hp]
      have ef : subRunsAux isPySpace false (d :: rest) = ' ' :: subRunsAux isPySpace true rest := by
        simp [subRunsAux, hp]
      refine ⟨?_, ?_⟩
      · cases b with
        | true => rw [et]; exact (ih true).1
        | false =>
          rw [ef]
          constructor
          · rw [List.chain'_cons']
            refine ⟨?_, (ih true).1.1⟩
            intro y hy
            right
            have hns := (ih true).2
            cases hx : subRunsAux isPySpace true rest with
            | nil => rw [hx] at hy; simp at hy
            | cons z zs =>
              rw [hx] at hy
              simp only [List.head?_cons, Option.mem_def, Option.some.injEq] at hy
              rw [hx] at hns
              rw [← hy]
              exact hns
          · intro c hc
            rcases List.mem_cons.mp hc with h | h
            · exact fun _ => h
            · exact (ih true).1.2 c h
      · rw [et]; exact (ih true).2
    · have eb : subRunsAux isPySpace b (d :: rest) = d :: subRunsAux isPySpace false rest := by
        simp [subRunsAux, hp]
      have ebt : subRunsAux isPySpace true (d :: rest) = d :: subRunsAux isPySpace false rest := by
        simp [subRunsAux, hp]
      refine ⟨?_, ?_⟩
      · rw [eb]
        constructor
        · rw [List.chain'_cons']
          exact ⟨fun y _ => Or.inl (by simpa using hp), (ih false).1.1⟩
        · intro c hc
          rcases List.mem_cons.mp hc with h | h
          · intro hcs; rw [h] at hcs; exact absurd hcs (by simpa using hp)
          · exact (ih false).1.2 c h
      · rw [ebt]
        exact (by simpa using hp : isPySpace d = false)

lemma subRunsAux_fixed (l : List Char)
    (hsp : ∀ c ∈ l, isPySpace c = true → c = ' ')
    (hch : List.Chain' spacedApart l) :
    subRunsAux isPySpace false l = l ∧
      (headNS l → subRunsAux isPySpace true l = l) := by
  induction l with
  | nil => exact ⟨rfl, fun _ => rfl⟩
  | cons d rest ih =>
    have hsp' : ∀ c ∈ rest, isPySpace c = true → c = ' ' :=
      fun c hc => hsp c (List.mem_cons_of_mem _ hc)
    have hch' : List.Chain' spacedApart rest := hch.tail
    by_cases hp : isPySpace d = true
    · have hd : d = ' ' := hsp d (List.mem_cons_self _ _) hp
      have hhead : headNS rest := by
        cases rest with
        | nil => trivial
        | cons e r2 =>
          rcases (List.chain'_cons.mp hch).1 with h | h
          · rw [hp] at h; exact absurd h (by decide)
          · exact h
      have hrec : subRunsAux isPySpace true rest = rest := (ih hsp' hch').2 hhead
      constructor
      · rw [show subRunsAux isPySpace false (d :: rest) =
            ' ' :: subRunsAux isPySpace true rest from by simp [subRunsAux, hp], hrec, hd]
      · intro hns
        exact absurd (show isPySpace d = false from hns) (by simp [hp])
    · have hrec : subRunsAux isPySpace false rest = rest := (ih hsp' hch').1
      constructor
      · simp [subRunsAux, hp, hrec]
      · intro hx; simp [subRunsAux, hp, hrec]

lemma chain_pyStrip (l : List Char) (h : List.Chain' spacedApart l) :
    List.Chain' spacedApart (pyStrip l) := by
  have hsym : ∀ x : List Char, List.Chain' spacedApart x →
      List.Chain' spacedApart x.reverse := by
    intro x hx
    rw [List.chain'_reverse]
    exact hx.imp (fun a b hab => Or.symm hab)
  unfold pyStrip
  exact hsym _ ((hsym _ (h.suffix (List.dropWhile_suffix _))).suffix (List.dropWhile_suffix _))

lemma mem_pyStrip (l : List Char) (c : Char) (h : c ∈ pyStrip l) : c ∈ l := by
  unfold pyStrip at h
  rw [List.mem_reverse] at h
  have h2 := (List.dropWhile_sublist _).subset h
  rw [List.mem_reverse] at h2
  exact (List.dropWhile_sublist _).subset h2

lemma pyRstrip_isPrefix (x : List Char) : pyRstrip x <+: x := by
  unfold pyRstrip
  have hs : x.reverse.dropWhile isPySpace <:+ x.reverse := List.dropWhile_suffix _
  have h2 := List.reverse_prefix.mpr hs
  rwa [List.reverse_reverse] at h2

lemma head?_pyRstrip (x : List Char) (c : Char) (h : (pyRstrip x).head? = some c) :
    x.head? = some c := by
  obtain ⟨t, ht⟩ := pyRstrip_isPrefix x
  cases hr : pyRstrip x with
  | nil => rw [hr] at h; exact absurd h (by simp)
  | cons d r =>
    rw [hr] at h ht
    simp only [List.head?_cons, Option.some.injEq] at h
    rw [← ht, ← h]
    rfl

lemma pyStrip_eq_rstrip_drop (l : List Char) :
    pyStrip l = pyRstrip (l.dropWhile isPySpace) := rfl

lemma normalize_text_head?_not_space (s : List Char) (c : Char)
    (h : (normalize_text s).head? = some c) : isPySpace c = false := by
  unfold normalize_text at h
  rw [pyStrip_eq_rstrip_drop] at h
  exact head?_dropWhile_not _ _ _ (head?_pyRstrip _ _ h)

lemma pyRstrip_normalize_eq (s : List Char) :
    pyRstrip (normalize_text s) = normalize_text s := by
  cases hx : normalize_text s with
  | nil => rfl
  | cons d r =>
    have hne : d :: r ≠ [] := by simp
    have hl : (d :: r).getLast? = some ((d :: r).getLast hne) :=
      List.getLast?_eq_getLast _ hne
    refine pyRstrip_eq_self _ _ hl ?_
    exact normalize_text_getLast_not_space s _ (by rw [hx]; exact hl)

lemma pyStrip_normalize_eq (s : List Char) :
    pyStrip (normalize_text s) = normalize_text s := by
  rw [pyStrip_eq_rstrip_drop]
  rw [show (normalize_text s).dropWhile isPySpace = normalize_text s from ?_]
  · exact pyRstrip_normalize_eq s
  · cases hx : normalize_text s with
    | nil => rfl
    | cons d r =>
      have hd : isPySpace d = false :=
        normalize_text_head?_not_space s d (by rw [hx]; rfl)
      rw [List.dropWhile_cons_of_neg (by simp [hd])]

lemma map_id_of_fixed (f : Char → Char) (l : List Char) (h : ∀ c ∈ l, f c = c) :
    l.map f = l := by
  induction l with
  | nil => rfl
  | cons d r ih =>
    rw [List.map_cons, h d (List.mem_cons_self _ _),
      ih (fun c hc => h c (List.mem_cons_of_mem _ hc))]

lemma normalize_text_idem (s : List Char) :
    normalize_text (normalize_text s) = normalize_text s := by
  have hmem : ∀ c ∈ normalize_text s, c = ' ' ∨ c ∈ s.map pyCharNorm := by
    intro c hc
    exact mem_subRunsAux isPySpace (s.map pyCharNorm) c false (mem_pyStrip _ _ hc)
  have h1 : (normalize_text s).map pyCharNorm = normalize_text s := by
    apply map_id_of_fixed
    intro c hc
    rcases hmem c hc with h | h
    · rw [h]; decide
    · obtain ⟨a, _, ha⟩ := List.mem_map.mp h
      rw [← ha]
      exact pyCharNorm_idem a
  have hsp : ∀ c ∈ normalize_text s, isPySpace c = true → c = ' ' := by
    intro c hc
    exact ((subRunsAux_shape (s.map pyCharNorm) false).1).2 c (mem_pyStrip _ _ hc)
  have hch : List.Chain' spacedApart (normalize_text s) :=
    chain_pyStrip _ ((subRunsAux_shape (s.map pyCharNorm) false).1).1
  show pyStrip (subRunsAux isPySpace false ((normalize_text s).map pyCharNorm)) = normalize_text s
  rw [h1, (subRunsAux_fixed (normalize_text s) hsp hch).1]
  exact pyStrip_normalize_eq s

end WtSOCR

namespace WtSOCR

/-- C9 (amended): on a line that the normalizer gate skips (no romanization
or sanskrit zone and no explicit confusable signature), the Token Normalizer
is idempotent.  The general idempotence claim is refuted by
c9_counterexample: the first pass can create diacritics that change the zone
classification of the second pass, which then rewrites further. -/
theorem c9_gate_skip_idempotent (s : List Char)
    (h1 : (line_zones (normalize_text s)).contains "romanization" = false)
    (h2 : (line_zones (normalize_text s)).contains "sanskrit" = false)
    (h3 : has_explicit_confusable (normalize_text s) = false) :
    post_cleanup_translit_line (post_cleanup_translit_line s) =
      post_cleanup_translit_line s := by
  have hs := post_cleanup_gate_skip s h1 h2 h3
  have hn := normalize_text_idem s
  rw [hs]
  exact (post_cleanup_gate_skip (normalize_text s) (by rw [hn]; exact h1)
    (by rw [hn]; exact h2) (by rw [hn]; exact h3)).trans hn

/-- C9 counterexample: the dollar sign of bä$am becomes ś in the first pass,
the resulting diacritic makes the line sanskrit-classified in the second
pass, and the umlaut conversion then turns ä into ā. -/
theorem c9_counterexample :
    post_cleanup_translit_line "bä$am".toList = "bäśam".toList ∧
    post_cleanup_translit_line (post_cleanup_translit_line "bä$am".toList) = "bāśam".toList ∧
    post_cleanup_translit_line (post_cleanup_translit_line "bä$am".toList) ≠
      post_cleanup_translit_line "bä$am".toList :=
  ⟨by decide, by decide, by decide⟩

theorem c9_gate_skip_idempotent_witness :
    (line_zones (normalize_text "im Haus".toList)).contains "romanization" = false ∧
    (line_zones (normalize_text "im Haus".toList)).contains "sanskrit" = false ∧
    has_explicit_confusable (normalize_text "im Haus".toList) = false ∧
    post_cleanup_translit_line (post_cleanup_translit_line "im Haus".toList) =
      post_cleanup_translit_line "im Haus".toList :=
  ⟨by decide, by decide, by decide,
    c9_gate_skip_idempotent "im Haus".toList (by decide) (by decide) (by decide)⟩

end WtSOCR
